import Mathlib

/-!
Verification development for the GaLib genetic-algorithm library.

The engine header (class `GeneticAlgorithm` in `genetic.hpp`) is embedded
from its C++ source.  The headers `genetic_config.hpp`,
`genetic_individu.hpp` and `genetic_utils.hpp` are not part of the sources
available here; the definitions that come from them are modelled from the
specification and are marked as such in their doc comments.

Modelling conventions:
- C++ `double` real values are modelled as exact rationals (`ℚ`).
- The fixed-width unsigned integer gene type is modelled as `Nat` together
  with an explicit width `integer_width`; C++ `~x` on a `W`-bit unsigned
  value is `(2 ^ W - 1) ^^^ x`.
- `std::mt19937_64` together with the C++ distribution adapters
  (`std::uniform_int_distribution`, `std::shuffle`, the uniform real
  distribution) is implementation-defined at the bit level, so the
  embedding fixes one concrete deterministic pseudo-random stream
  (splitmix64) and canonical adapters (modulo reduction, Fisher-Yates).
  Every claim settled here is insensitive to the particular deterministic
  stream; what matters is that all randomness flows through the single
  engine-owned generator state, exactly as in the source.
- `std::numeric_limits<Real>::lowest()` used as the initial best fitness is
  modelled by `Option ℚ` with `none` as the bottom element.
- Out-of-bounds accesses of `std::vector::operator[]` are undefined
  behaviour in C++; the embedding makes the affected engine operations
  return `Option` and yield `none` exactly when an index leaves the bounds
  of the accessed buffer.
-/

namespace GaLib

/-- Equality of validation results is decidable. -/
instance {ε α : Type} [DecidableEq ε] [DecidableEq α] : DecidableEq (Except ε α) := fun a b =>
  match a, b with
  | .ok x, .ok y =>
    if h : x = y then .isTrue (by rw [h]) else .isFalse (by intro hc; cases hc; exact h rfl)
  | .error x, .error y =>
    if h : x = y then .isTrue (by rw [h]) else .isFalse (by intro hc; cases hc; exact h rfl)
  | .ok _, .error _ => .isFalse (by intro hc; cases hc)
  | .error _, .ok _ => .isFalse (by intro hc; cases hc)

/-- The 64-bit modulus for the pseudo-random generator arithmetic. -/
def U64 : Nat := 2 ^ 64

/-- One step of the splitmix64 generator: new 64-bit state. -/
def rngStep (s : Nat) : Nat := (s + 0x9E3779B97F4A7C15) % U64

/-- The splitmix64 output mixing function on the 64-bit state. -/
def rngMix (z0 : Nat) : Nat :=
  let z1 := ((z0 ^^^ (z0 >>> 30)) * 0xBF58476D1CE4E5B9) % U64
  let z2 := ((z1 ^^^ (z1 >>> 27)) * 0x94D049BB133111EB) % U64
  z2 ^^^ (z2 >>> 31)

/-- Draw one raw 64-bit value from the generator, returning the value and
the new generator state.  This stands for one raw draw from the
engine-owned `std::mt19937_64`. -/
def rngNext (s : Nat) : Nat × Nat :=
  let s' := rngStep s
  (rngMix s', s')

/-- Canonical model of `std::uniform_int_distribution<size_t>(lo, hi)`
applied to the generator: a value in `[lo, hi]` plus the new state.
The exact C++ mapping from raw draws is implementation-defined; the
modulo mapping is one concrete deterministic choice. -/
def uniformNat (lo hi s : Nat) : Nat × Nat :=
  let (r, s') := rngNext s
  (lo + r % (hi - lo + 1), s')

/-- Canonical model of the uniform real distribution on `[0,1]`
(`ConfigType::proba_distribution`): a rational in `[0,1]` plus the new
state. -/
def uniformProba (s : Nat) : ℚ × Nat :=
  let (r, s') := rngNext s
  ((r : ℚ) / (U64 : ℚ), s')

/-- The crossover method selector (`CrossoverType` in the source). -/
inductive CrossoverType where
  | SINGLE_POINT_BIT_LEVEL
  | UNIFORM_BIT_LEVEL
deriving DecidableEq

/-- Modelled from the spec: the `Config` record of `genetic_config.hpp`
(not under the available sources), with the fields enumerated in the
specification's data model.  `integer_width` is the bit width of the
chosen unsigned integer type (e.g. 32 for `uint32_t`). -/
structure Config where
  population_size : Nat
  max_generations : Nat
  number_of_vectors : Nat
  dimension : Nat
  min_real : ℚ
  max_real : ℚ
  integer_bits : Nat
  integer_width : Nat
  crossover_method : CrossoverType
  tournament_size : Nat
  enable_elitism : Bool
  enable_auto_adaptation : Bool
  initial_mutation_probability : ℚ
  uniform_crossover_probability : ℚ
  print_interval : Nat
deriving DecidableEq

/-- Modelled from the spec: `Config::get_half_population_size()`. -/
def Config.get_half_population_size (c : Config) : Nat :=
  c.population_size / 2

/-- Modelled from the spec: `Config::get_integer_max()`, the largest
value representable on `integer_bits` bits. -/
def Config.get_integer_max (c : Config) : Nat :=
  2 ^ c.integer_bits - 1

/-- The error class raised by `Config::validate()`
(`std::invalid_argument` in the source). -/
inductive ValErr where
  | invalid_argument : ValErr
deriving DecidableEq

/-- Modelled from the spec: `Config::validate()` from
`genetic_config.hpp` (not under the available sources).  It fails with an
invalid-argument error when `min_real >= max_real`, when
`population_size` is odd, or on the other cross-field violations of the
specification's data model (`population_size > 0`, `max_generations > 0`,
`number_of_vectors >= 1`, `dimension >= 1`,
`1 <= integer_bits <= integer_width`,
`1 <= tournament_size <= population_size`, probabilities in `[0,1]`). -/
def Config.validate (c : Config) : Except ValErr Unit :=
  if c.population_size = 0 then .error .invalid_argument
  else if c.population_size % 2 ≠ 0 then .error .invalid_argument
  else if c.max_generations = 0 then .error .invalid_argument
  else if c.number_of_vectors = 0 then .error .invalid_argument
  else if c.dimension = 0 then .error .invalid_argument
  else if c.min_real ≥ c.max_real then .error .invalid_argument
  else if c.integer_bits = 0 then .error .invalid_argument
  else if c.integer_bits > c.integer_width then .error .invalid_argument
  else if c.tournament_size = 0 then .error .invalid_argument
  else if c.tournament_size > c.population_size then .error .invalid_argument
  else if c.initial_mutation_probability < 0 ∨ 1 < c.initial_mutation_probability then
    .error .invalid_argument
  else if c.uniform_crossover_probability < 0 ∨ 1 < c.uniform_crossover_probability then
    .error .invalid_argument
  else .ok ()

/-- Modelled from the spec: the default-constructed
`Config<double, uint32_t>`; the tests require the default configuration
to validate.  The concrete default field values are not in the available
sources; these choices satisfy every documented cross-field constraint. -/
def defaultConfig : Config where
  population_size := 100
  max_generations := 100
  number_of_vectors := 1
  dimension := 1
  min_real := -10
  max_real := 10
  integer_bits := 32
  integer_width := 32
  crossover_method := .SINGLE_POINT_BIT_LEVEL
  tournament_size := 3
  enable_elitism := true
  enable_auto_adaptation := false
  initial_mutation_probability := mkRat 1 100
  uniform_crossover_probability := mkRat 1 2
  print_interval := 10

/-- Modelled from the spec: `genetic::utils::bin_to_real` from
`genetic_utils.hpp` (not under the available sources); the specification's
codec contract is `min + (bin / (2^bits - 1)) * (max - min)`. -/
def bin_to_real (bin : Nat) (mn mx : ℚ) (bits : Nat) : ℚ :=
  mn + ((bin : ℚ) / ((2 ^ bits : ℚ) - 1)) * (mx - mn)

/-- Modelled from the spec: `genetic::utils::bin_to_proba`, the codec
specialised to `min = 0`, `max = 1`. -/
def bin_to_proba (bin : Nat) (bits : Nat) : ℚ :=
  bin_to_real bin 0 1 bits

/-- Modelled from the spec: the `Individu` class of
`genetic_individu.hpp` (not under the available sources).  It holds
`number_of_vectors` chromosomes of `dimension` genes each, the `V + 1`
mutation-probability genes, a cached fitness value and the evaluated
flag. -/
structure Individu where
  genes : List (List Nat)
  mutation_probas : List Nat
  fitness : ℚ
  evaluated : Bool
deriving DecidableEq

instance : Inhabited Individu := ⟨⟨[], [], 0, false⟩⟩

/-- Modelled from the spec: `Individu::get_gene(chromosome, index)`. -/
def Individu.get_gene (ind : Individu) (chromo i : Nat) : Nat :=
  (ind.genes.getD chromo []).getD i 0

/-- Modelled from the spec: `Individu::set_gene(chromosome, index, v)`;
any write of genetic material implicitly invalidates the cached
fitness. -/
def Individu.set_gene (ind : Individu) (chromo i v : Nat) : Individu :=
  { ind with
    genes := ind.genes.set chromo ((ind.genes.getD chromo []).set i v)
    evaluated := false }

/-- Modelled from the spec: `Individu::get_mutation_proba(index)`. -/
def Individu.get_mutation_proba (ind : Individu) (i : Nat) : Nat :=
  ind.mutation_probas.getD i 0

/-- Modelled from the spec: `Individu::set_mutation_proba(index, v)`;
also implicitly invalidates the cached fitness. -/
def Individu.set_mutation_proba (ind : Individu) (i v : Nat) : Individu :=
  { ind with
    mutation_probas := ind.mutation_probas.set i v
    evaluated := false }

/-- Modelled from the spec: `Individu::invalidate_fitness()`. -/
def Individu.invalidate_fitness (ind : Individu) : Individu :=
  { ind with evaluated := false }

/-- Modelled from the spec: `Individu::set_fitness(v)`: stores the value
and sets the evaluated flag. -/
def Individu.set_fitness (ind : Individu) (v : ℚ) : Individu :=
  { ind with fitness := v, evaluated := true }

/-- Modelled from the spec: `Individu::get_fitness()`. -/
def Individu.get_fitness (ind : Individu) : ℚ := ind.fitness

/-- Modelled from the spec: `Individu::have_been_evaluated()`. -/
def Individu.have_been_evaluated (ind : Individu) : Bool := ind.evaluated

/-- Modelled from the spec: `Individu::to_real_vectors()` decodes every
chromosome into vectors of reals through the fixed-point codec. -/
def Individu.to_real_vectors (cfg : Config) (ind : Individu) : List (List ℚ) :=
  ind.genes.map (fun c => c.map (fun g => bin_to_real g cfg.min_real cfg.max_real cfg.integer_bits))

/-- Draw `n` values by iterating a state-threading generator step. -/
def genList {α : Type} (gen : Nat → α × Nat) : Nat → Nat → List α × Nat
  | 0, s => ([], s)
  | n + 1, s =>
    let (x, s') := gen s
    let (xs, s'') := genList gen n s'
    (x :: xs, s'')

/-- Modelled from the spec: the random `Individu(config, rng)`
constructor fills every gene and every mutation-probability gene with a
uniformly random integer in `[0, 2^integer_bits - 1]`. -/
def randIndividu (cfg : Config) (s : Nat) : Individu × Nat :=
  let (chromos, s1) :=
    genList (genList (uniformNat 0 cfg.get_integer_max) cfg.dimension) cfg.number_of_vectors s
  let (probas, s2) :=
    genList (uniformNat 0 cfg.get_integer_max) (cfg.number_of_vectors + 1) s1
  (⟨chromos, probas, 0, false⟩, s2)

/-- Map a state-threading function over a list, left to right. -/
def mapState {α β : Type} (f : α → Nat → β × Nat) : List α → Nat → List β × Nat
  | [], s => ([], s)
  | x :: xs, s =>
    let (y, s') := f x s
    let (ys, s'') := mapState f xs s'
    (y :: ys, s'')

/-- Mutate the bits `0..B-1` of one gene: one uniform real draw per bit,
the bit is flipped when the draw is `<=` the rate (matching the
`proba_distribution(m_rng) <= p` comparison visible in the engine
source). -/
def mutateGene (B : Nat) (rate : ℚ) (g : Nat) (s : Nat) : Nat × Nat :=
  (List.range B).foldl
    (fun (acc : Nat × Nat) i =>
      let (p, s') := uniformProba acc.2
      if p ≤ rate then (acc.1 ^^^ (1 <<< i), s') else (acc.1, s'))
    (g, s)

/-- Modelled from the spec: `Individu::mutate(rng)`.  Each gene bit is
flipped independently with the chromosome's decoded mutation probability
when auto-adaptation is enabled, else with the config's fixed
`initial_mutation_probability`; with auto-adaptation the
mutation-probability genes themselves undergo the same bit-flip process
(driven by the extra slot `V`'s decoded probability).  Writes of genetic
material go through the invalidating setters, so the cached fitness
survives only when nothing changed. -/
def Individu.mutate (cfg : Config) (ind : Individu) (s : Nat) : Individu × Nat :=
  let chromoRate := fun c =>
    if cfg.enable_auto_adaptation then
      bin_to_proba (ind.get_mutation_proba c) cfg.integer_bits
    else cfg.initial_mutation_probability
  let (genes', s1) :=
    mapState
      (fun (cp : List Nat × Nat) =>
        mapState (fun g => mutateGene cfg.integer_bits (chromoRate cp.2) g) cp.1)
      (ind.genes.zip (List.range ind.genes.length)) s
  let (probas', s2) :=
    if cfg.enable_auto_adaptation then
      mapState
        (fun g =>
          mutateGene cfg.integer_bits
            (bin_to_proba (ind.get_mutation_proba cfg.number_of_vectors) cfg.integer_bits) g)
        ind.mutation_probas s1
    else (ind.mutation_probas, s1)
  ({ ind with
      genes := genes'
      mutation_probas := probas'
      evaluated := ind.evaluated && decide (genes' = ind.genes ∧ probas' = ind.mutation_probas) },
   s2)

/-- The genotype of an individual: the chromosomes, plus the
mutation-probability genes when auto-adaptation is enabled (they are part
of the evolving genetic material only in that case). -/
def genotypeOf (cfg : Config) (ind : Individu) : List (List Nat) × List Nat :=
  (ind.genes, if cfg.enable_auto_adaptation then ind.mutation_probas else [])

/-- The fitness-function type: vectors of decoded reals to a score. -/
def FitnessFunction : Type := List (List ℚ) → ℚ

/-- The state of a `GeneticAlgorithm` object.  `best_fitness = none`
models the `std::numeric_limits<Real>::lowest()` sentinel.  The two final
fields are ghost observers used only by the statements: `calls` counts
fitness-function invocations, `produced` logs every genotype the engine
ever produces; neither influences any behaviour. -/
structure Engine where
  config : Config
  rng : Nat
  population : List Individu
  selected : List Individu
  current_generation : Nat
  best_fitness : Option ℚ
  best_individual : Individu
  calls : Nat
  produced : List (List (List Nat) × List Nat)
deriving DecidableEq

instance : Inhabited Engine :=
  ⟨⟨defaultConfig, 0, [], [], 0, none, default, 0, []⟩⟩

/-- The comparison `fitness > m_best_fitness` where the best starts at
the `lowest()` sentinel: every value beats `none`. -/
def betterThan (v : ℚ) (b : Option ℚ) : Bool :=
  match b with
  | none => true
  | some x => x < v

/-- `GeneticAlgorithm::evaluate`: returns the cached fitness when the
individual was already evaluated, else invokes the fitness function on
the decoded vectors and caches the result.  The third component is the
ghost count of fitness-function invocations (0 or 1). -/
def evaluate (cfg : Config) (f : FitnessFunction) (ind : Individu) : ℚ × Individu × Nat :=
  if ind.have_been_evaluated then (ind.get_fitness, ind, 0)
  else
    let eval := f (ind.to_real_vectors cfg)
    (eval, ind.set_fitness eval, 1)

/-- `evaluate(m_population[idx])`: the C++ call takes the stored
individual by reference, so the cached fitness is written back into the
population slot. -/
def evalAt (cfg : Config) (f : FitnessFunction) (pop : List Individu) (idx : Nat) :
    ℚ × List Individu × Nat :=
  let r := evaluate cfg f (pop.getD idx default)
  (r.1, pop.set idx r.2.1, r.2.2)

/-- `GeneticAlgorithm::update_best`, processing the population left to
right: each member is evaluated (through the cache) in place, and the
best fitness and best individual are updated on strict improvement. -/
def updateBestGo (cfg : Config) (f : FitnessFunction) :
    List Individu → Option ℚ → Individu → Nat → List Individu × Option ℚ × Individu × Nat
  | [], b, bi, c => ([], b, bi, c)
  | ind :: rest, b, bi, c =>
    let (v, ind', c1) := evaluate cfg f ind
    let (b', bi') := if betterThan v b then (some v, ind') else (b, bi)
    let (rest', b'', bi'', c2) := updateBestGo cfg f rest b' bi' (c + c1)
    (ind' :: rest', b'', bi'', c2)

/-- `GeneticAlgorithm::update_best` on the engine state. -/
def update_best (f : FitnessFunction) (e : Engine) : Engine :=
  let r := updateBestGo e.config f e.population e.best_fitness e.best_individual 0
  { e with
    population := r.1
    best_fitness := r.2.1
    best_individual := r.2.2.1
    calls := e.calls + r.2.2.2 }

/-- `GeneticAlgorithm::initialize_population`: fill the population with
`population_size` random individuals, then run `update_best`.  The ghost
log records the produced genotypes. -/
def init_population (f : FitnessFunction) (e : Engine) : Engine :=
  let (pop, s') := genList (randIndividu e.config) e.config.population_size e.rng
  update_best f
    { e with
      population := pop
      rng := s'
      produced := e.produced ++ pop.map (genotypeOf e.config) }

/-- The running state of one tournament: current best index and value,
the population (accumulating fitness caches), and the ghost call count. -/
structure TournSt where
  best_idx : Nat
  best_eval : ℚ
  pop : List Individu
  calls : Nat

/-- One iteration of the inner tournament loop of
`GeneticAlgorithm::selection`: evaluate the candidate at `idx`, keep it
only on strictly greater fitness. -/
def tournStep (cfg : Config) (f : FitnessFunction) (st : TournSt) (idx : Nat) : TournSt :=
  let (ev, pop', cc) := evalAt cfg f st.pop idx
  if ev > st.best_eval then ⟨idx, ev, pop', st.calls + cc⟩
  else ⟨st.best_idx, st.best_eval, pop', st.calls + cc⟩

/-- One tournament of `GeneticAlgorithm::selection`: draw
`tournament_size` indices over the whole population, evaluate the first,
fold the rest, and return a copy of the winner together with the updated
population, generator state and ghost call count.  `none` models the
undefined `tournament_indices[0]` access when `tournament_size = 0`. -/
def selectionRound (cfg : Config) (f : FitnessFunction) (pop : List Individu) (s : Nat) :
    Option (Individu × List Individu × Nat × Nat) :=
  let (draws, s1) := genList (uniformNat 0 (cfg.population_size - 1)) cfg.tournament_size s
  match draws with
  | [] => none
  | d0 :: rest =>
    let (e0, pop0, c0) := evalAt cfg f pop d0
    let st := rest.foldl (tournStep cfg f) ⟨d0, e0, pop0, c0⟩
    some (st.pop.getD st.best_idx default, st.pop, s1, st.calls)

/-- The outer loop of `GeneticAlgorithm::selection`: `n` remaining
rounds, writing winners into the selected buffer from slot `i` on. -/
def selectionLoop (cfg : Config) (f : FitnessFunction) :
    Nat → Nat → List Individu → List Individu → Nat → Nat →
    Option (List Individu × List Individu × Nat × Nat)
  | 0, _, pop, sel, s, calls => some (pop, sel, s, calls)
  | n + 1, i, pop, sel, s, calls =>
    match selectionRound cfg f pop s with
    | none => none
    | some (w, pop', s', cc) =>
      selectionLoop cfg f n (i + 1) pop' (sel.set i w) s' (calls + cc)

/-- `GeneticAlgorithm::selection` on the engine state: tournament
selection over `get_half_population_size()` rounds. -/
def selection (f : FitnessFunction) (e : Engine) : Option Engine :=
  match selectionLoop e.config f e.config.get_half_population_size 0
      e.population e.selected e.rng 0 with
  | none => none
  | some (pop', sel', s', cc) =>
    some { e with population := pop', selected := sel', rng := s', calls := e.calls + cc }

/-- `GeneticAlgorithm::bit_level_crossover_single_point_bit_level` for
one chromosome: draw a cut over the flattened bit range
`[0, dimension * integer_bits - 1]`, copy genes before the cut from the
respective parent, bit-splice the cut gene with the mask
`(Integer(1) << k_prime) - 1` (the C++ `~mask1` on the `W`-bit unsigned
type is `(2 ^ W - 1) ^^^ mask1`), and copy genes after the cut from the
other parent. -/
def bit_level_crossover_single_point_bit_level (cfg : Config) (p1 p2 child1 child2 : Individu)
    (chromo s : Nat) : Individu × Individu × Nat :=
  let (cut_point, s') := uniformNat 0 (cfg.dimension * cfg.integer_bits - 1) s
  let k := cut_point / cfg.integer_bits
  let k' := cut_point % cfg.integer_bits
  let cc :=
    (List.range k).foldl
      (fun (cc : Individu × Individu) i =>
        (cc.1.set_gene chromo i (p1.get_gene chromo i),
         cc.2.set_gene chromo i (p2.get_gene chromo i)))
      (child1, child2)
  let cc :=
    if k < cfg.dimension then
      let g1 := p1.get_gene chromo k
      let g2 := p2.get_gene chromo k
      let mask1 := (1 <<< k') - 1
      let mask2 := (2 ^ cfg.integer_width - 1) ^^^ mask1
      (cc.1.set_gene chromo k ((g1 &&& mask1) ||| (g2 &&& mask2)),
       cc.2.set_gene chromo k ((g2 &&& mask1) ||| (g1 &&& mask2)))
    else cc
  let cc :=
    (List.range' (k + 1) (cfg.dimension - (k + 1))).foldl
      (fun (cc : Individu × Individu) i =>
        (cc.1.set_gene chromo i (p2.get_gene chromo i),
         cc.2.set_gene chromo i (p1.get_gene chromo i)))
      cc
  (cc.1, cc.2, s')

/-- One gene of
`GeneticAlgorithm::bit_level_crossover_uniform_bit_level`: for each bit,
one uniform real draw decides whether the bit keeps its parent or is
swapped. -/
def uniformGene (cfg : Config) (g1 g2 s : Nat) : Nat × Nat × Nat :=
  (List.range cfg.integer_bits).foldl
    (fun (bacc : Nat × Nat × Nat) i =>
      let mask := 1 <<< i
      let (p, s'') := uniformProba bacc.2.2
      if p ≤ cfg.uniform_crossover_probability then
        (bacc.1 ||| (g1 &&& mask), bacc.2.1 ||| (g2 &&& mask), s'')
      else
        (bacc.1 ||| (g2 &&& mask), bacc.2.1 ||| (g1 &&& mask), s''))
    (0, 0, s)

/-- `GeneticAlgorithm::bit_level_crossover_uniform_bit_level` for one
chromosome. -/
def bit_level_crossover_uniform_bit_level (cfg : Config) (p1 p2 child1 child2 : Individu)
    (chromo s : Nat) : Individu × Individu × Nat :=
  (List.range cfg.dimension).foldl
    (fun (acc : Individu × Individu × Nat) k =>
      let r := uniformGene cfg (p1.get_gene chromo k) (p2.get_gene chromo k) acc.2.2
      (acc.1.set_gene chromo k r.1, acc.2.1.set_gene chromo k r.2.1, r.2.2))
    (child1, child2, s)

/-- `GeneticAlgorithm::bit_level_crossover`: dispatch on the configured
crossover method. -/
def bit_level_crossover (cfg : Config) (p1 p2 child1 child2 : Individu) (chromo s : Nat) :
    Individu × Individu × Nat :=
  match cfg.crossover_method with
  | .SINGLE_POINT_BIT_LEVEL =>
    bit_level_crossover_single_point_bit_level cfg p1 p2 child1 child2 chromo s
  | .UNIFORM_BIT_LEVEL =>
    bit_level_crossover_uniform_bit_level cfg p1 p2 child1 child2 chromo s

/-- `GeneticAlgorithm::bit_level_crossover_single_point_bit_level_probas`:
the single-point splice over the `V + 1` mutation-probability genes, with
the cut drawn over `[0, (V + 1) * integer_bits - 1]`. -/
def bit_level_crossover_single_point_bit_level_probas (cfg : Config)
    (p1 p2 child1 child2 : Individu) (s : Nat) : Individu × Individu × Nat :=
  let (cut_point, s') := uniformNat 0 ((cfg.number_of_vectors + 1) * cfg.integer_bits - 1) s
  let k := cut_point / cfg.integer_bits
  let k' := cut_point % cfg.integer_bits
  let cc :=
    (List.range k).foldl
      (fun (cc : Individu × Individu) i =>
        (cc.1.set_mutation_proba i (p1.get_mutation_proba i),
         cc.2.set_mutation_proba i (p2.get_mutation_proba i)))
      (child1, child2)
  let cc :=
    if k < cfg.number_of_vectors + 1 then
      let pr1 := p1.get_mutation_proba k
      let pr2 := p2.get_mutation_proba k
      let mask1 := (1 <<< k') - 1
      let mask2 := (2 ^ cfg.integer_width - 1) ^^^ mask1
      (cc.1.set_mutation_proba k ((pr1 &&& mask1) ||| (pr2 &&& mask2)),
       cc.2.set_mutation_proba k ((pr2 &&& mask1) ||| (pr1 &&& mask2)))
    else cc
  let cc :=
    (List.range' (k + 1) (cfg.number_of_vectors + 1 - (k + 1))).foldl
      (fun (cc : Individu × Individu) i =>
        (cc.1.set_mutation_proba i (p2.get_mutation_proba i),
         cc.2.set_mutation_proba i (p1.get_mutation_proba i)))
      cc
  (cc.1, cc.2, s')

/-- `GeneticAlgorithm::bit_level_crossover_uniform_bit_level_probas`. -/
def bit_level_crossover_uniform_bit_level_probas (cfg : Config) (p1 p2 child1 child2 : Individu)
    (s : Nat) : Individu × Individu × Nat :=
  (List.range (cfg.number_of_vectors + 1)).foldl
    (fun (acc : Individu × Individu × Nat) k =>
      let r := uniformGene cfg (p1.get_mutation_proba k) (p2.get_mutation_proba k) acc.2.2
      (acc.1.set_mutation_proba k r.1, acc.2.1.set_mutation_proba k r.2.1, r.2.2))
    (child1, child2, s)

/-- `GeneticAlgorithm::bit_level_crossover_probas`: dispatch on the
configured crossover method. -/
def bit_level_crossover_probas (cfg : Config) (p1 p2 child1 child2 : Individu) (s : Nat) :
    Individu × Individu × Nat :=
  match cfg.crossover_method with
  | .SINGLE_POINT_BIT_LEVEL =>
    bit_level_crossover_single_point_bit_level_probas cfg p1 p2 child1 child2 s
  | .UNIFORM_BIT_LEVEL =>
    bit_level_crossover_uniform_bit_level_probas cfg p1 p2 child1 child2 s

/-- `GeneticAlgorithm::crossover`: children start as copies of the
parents, every data chromosome is recombined, the mutation-probability
genes are recombined when auto-adaptation is enabled, and both children's
cached fitness is invalidated unconditionally. -/
def crossover (cfg : Config) (p1 p2 : Individu) (s : Nat) : Individu × Individu × Nat :=
  let acc :=
    (List.range cfg.number_of_vectors).foldl
      (fun (acc : Individu × Individu × Nat) chromo =>
        bit_level_crossover cfg p1 p2 acc.1 acc.2.1 chromo acc.2.2)
      (p1, p2, s)
  let acc :=
    if cfg.enable_auto_adaptation then
      bit_level_crossover_probas cfg p1 p2 acc.1 acc.2.1 acc.2.2
    else acc
  (acc.1.invalidate_fitness, acc.2.1.invalidate_fitness, acc.2.2)

/-- Swap two slots of a list (one step of the Fisher-Yates shuffle). -/
def listSwap (l : List Individu) (i j : Nat) : List Individu :=
  let a := l.getD i default
  let b := l.getD j default
  (l.set i b).set j a

/-- Canonical model of `std::shuffle` (whose exact draw sequence is
implementation-defined): the Fisher-Yates walk from the last slot down to
slot 1, one bounded uniform draw per slot. -/
def shuffleList (l : List Individu) (s : Nat) : List Individu × Nat :=
  ((List.range' 1 (l.length - 1)).reverse).foldl
    (fun (acc : List Individu × Nat) i =>
      let (j, s') := uniformNat 0 i acc.2
      (listSwap acc.1 i j, s'))
    (l, s)

/-- One pass of `GeneticAlgorithm::create_offspring` over the pair start
indices `0, 2, 4, …` (the C++ `for (i = 0; i < size; i += 2)` loop):
cross `sel[i]` with `sel[i+1]` and write the two children to population
slots `base + i` and `base + i + 1`.  `none` models the out-of-bounds
vector accesses that occur when an index leaves the buffer. -/
def offspringGo (cfg : Config) (sel : List Individu) (base : Nat) :
    List Nat → List Individu → Nat → Option (List Individu × Nat × List Individu)
  | [], pop, s => some (pop, s, [])
  | i :: rest, pop, s =>
    if i + 1 < sel.length ∧ base + i + 1 < pop.length then
      let p1 := sel.getD i default
      let p2 := sel.getD (i + 1) default
      let r := crossover cfg p1 p2 s
      match offspringGo cfg sel base rest ((pop.set (base + i) r.1).set (base + i + 1) r.2.1)
          r.2.2 with
      | none => none
      | some (pop', s'', kids) => some (pop', s'', r.1 :: r.2.1 :: kids)
    else none

/-- The pair start indices of one `create_offspring` pass: every even `i`
with `i < n`. -/
def pairStarts (n : Nat) : List Nat :=
  (List.range n).filter (fun i => i % 2 = 0)

/-- `GeneticAlgorithm::create_offspring`: shuffle the selected parents,
pair them up writing children over the lower population slots, then
shuffle and pair a second time writing over the slots from
`m_selected.size()` on. -/
def create_offspring (e : Engine) : Option Engine :=
  let cfg := e.config
  let (sel1, s1) := shuffleList e.selected e.rng
  match offspringGo cfg sel1 0 (pairStarts sel1.length) e.population s1 with
  | none => none
  | some (pop1, s2, kids1) =>
    let (sel2, s3) := shuffleList sel1 s2
    match offspringGo cfg sel2 sel2.length (pairStarts sel2.length) pop1 s3 with
    | none => none
    | some (pop2, s4, kids2) =>
      some { e with
             population := pop2
             selected := sel2
             rng := s4
             produced := e.produced ++ (kids1 ++ kids2).map (genotypeOf cfg) }

/-- `GeneticAlgorithm::mutate_population`: mutate every member of the
population in place, threading the generator. -/
def mutate_population (e : Engine) : Engine :=
  let r := mapState (Individu.mutate e.config) e.population e.rng
  { e with
    population := r.1
    rng := r.2
    produced := e.produced ++ r.1.map (genotypeOf e.config) }

/-- `GeneticAlgorithm::add_best`: overwrite one uniformly drawn
population slot with the saved best individual. -/
def add_best (e : Engine) : Option Engine :=
  let (idx, s') := uniformNat 0 (e.config.population_size - 1) e.rng
  if idx < e.population.length then
    some { e with population := e.population.set idx e.best_individual, rng := s' }
  else none

/-- `GeneticAlgorithm::step`: selection, conditional elite snapshot,
crossover, mutation, conditional elite reinjection, unconditional
`update_best`, and the generation-counter increment. -/
def step (f : FitnessFunction) (e : Engine) : Option Engine :=
  match selection f e with
  | none => none
  | some e1 =>
    let e2 := if e.config.enable_elitism then update_best f e1 else e1
    match create_offspring e2 with
    | none => none
    | some e3 =>
      let e4 := mutate_population e3
      match (if e.config.enable_elitism then add_best e4 else some e4) with
      | none => none
      | some e5 =>
        let e6 := update_best f e5
        some { e6 with current_generation := e6.current_generation + 1 }

/-- Iterate `step` a given number of times. -/
def runSteps (f : FitnessFunction) (e : Engine) : Nat → Option Engine
  | 0 => some e
  | n + 1 =>
    match step f e with
    | none => none
    | some e' => runSteps f e' n

/-- `GeneticAlgorithm::run`: execute `step` exactly `max_generations`
times (verbose printing and the callback do not affect the state). -/
def run (f : FitnessFunction) (e : Engine) : Option Engine :=
  runSteps f e e.config.max_generations

/-- The best-fitness value observed after each of `n` generations (the
sequence a per-generation callback would see). -/
def stepTrace (f : FitnessFunction) (e : Engine) : Nat → Option (List (Option ℚ))
  | 0 => some []
  | n + 1 =>
    match step f e with
    | none => none
    | some e' =>
      match stepTrace f e' n with
      | none => none
      | some tr => some (e'.best_fitness :: tr)

/-- The `GeneticAlgorithm` constructor: the generator is seeded with the
explicit seed, or from system entropy when the seed is 0; the config is
validated before any population work; the population is then filled and
the selected-parents buffer sized to half the population. -/
def mkEngine (cfg : Config) (f : FitnessFunction) (seed entropy : Nat) : Except ValErr Engine :=
  let s0 := if seed = 0 then entropy else seed
  match cfg.validate with
  | .error err => .error err
  | .ok _ =>
    let e : Engine :=
      { config := cfg, rng := s0, population := [], selected := [],
        current_generation := 0, best_fitness := none, best_individual := default,
        calls := 0, produced := [] }
    let e := init_population f e
    .ok { e with selected := List.replicate cfg.get_half_population_size default }

/-- `GeneticAlgorithm::reset`: validate the new config, reset the counter
and the best tracker, draw a fresh random best individual, refill the
population and resize the selected buffer; the generator state is kept
(not reseeded). -/
def reset (cfg : Config) (f : FitnessFunction) (e : Engine) : Except ValErr Engine :=
  match cfg.validate with
  | .error err => .error err
  | .ok _ =>
    let e1 := { e with config := cfg, current_generation := 0, best_fitness := none }
    let (bi, s') := randIndividu cfg e1.rng
    let e2 := init_population f { e1 with best_individual := bi, rng := s' }
    .ok { e2 with selected := List.replicate cfg.get_half_population_size default }

/-- The whole observable run of a freshly constructed engine: the
best-fitness value after every generation, `none` when construction
fails or a step hits undefined behaviour. -/
def engineTrace (cfg : Config) (f : FitnessFunction) (seed entropy : Nat) :
    Option (List (Option ℚ)) :=
  match mkEngine cfg f seed entropy with
  | .error _ => none
  | .ok e => stepTrace f e cfg.max_generations

/-- Ghost observer: the number of distinct genotypes the engine has ever
produced. -/
def distinctProduced (e : Engine) : Nat := e.produced.dedup.length

/-- Bit `pos` of the flattened bit string of a chromosome: gene `pos / B`
contributes bits `pos % B` (low bit first). -/
def flatBit (B : Nat) (genes : List Nat) (pos : Nat) : Bool :=
  (genes.getD (pos / B) 0).testBit (pos % B)

/-- The fitness value that `evaluate` yields for the population member at
`idx` (the cached value, or the fitness function on the decoded
genotype). -/
def evalValue (cfg : Config) (f : FitnessFunction) (pop : List Individu) (idx : Nat) : ℚ :=
  (evaluate cfg f (pop.getD idx default)).1

/-- Evaluate (through the cache) every listed population index in order,
accumulating the fitness caches and the ghost call count. -/
def evalAllAt (cfg : Config) (f : FitnessFunction) (pop : List Individu) (draws : List Nat) :
    List Individu × Nat :=
  draws.foldl
    (fun (acc : List Individu × Nat) d =>
      let x := evalAt cfg f acc.1 d
      (x.2.1, acc.2 + x.2.2))
    (pop, 0)

/-- Specification of the tournament winner, written from the claim: the
first-drawn index whose fitness is greatest among all drawn candidates
(so among equal-fitness candidates the first-drawn one wins). -/
def tournamentWinnerSpec (fit : Nat → ℚ) (draws : List Nat) : Option Nat :=
  draws.find? (fun d => draws.all (fun d2 => fit d2 ≤ fit d))

/-- Repackaging of the selection loop that returns the list of round
winners in order (the contents the selected buffer receives). -/
def selectionWinners (cfg : Config) (f : FitnessFunction) :
    Nat → List Individu → Nat → Option (List Individu × List Individu × Nat × Nat)
  | 0, pop, s => some ([], pop, s, 0)
  | n + 1, pop, s =>
    match selectionRound cfg f pop s with
    | none => none
    | some (w, pop', s', cc) =>
      match selectionWinners cfg f n pop' s' with
      | none => none
      | some (ws, pop'', s'', cc') => some (w :: ws, pop'', s'', cc + cc')

/-- Order on tracked best-fitness values with the `lowest()` sentinel at
the bottom. -/
def bestLE (a b : Option ℚ) : Prop :=
  match a, b with
  | none, _ => True
  | some _, none => False
  | some x, some y => x ≤ y

/-- An engine state is well formed when its buffers have the sizes the
constructor establishes. -/
def EngineWF (e : Engine) : Prop :=
  e.population.length = e.config.population_size ∧
  e.selected.length = e.config.get_half_population_size

/-- Every stored individual carries a valid fitness cache (established
by `update_best`, which runs at construction and at the end of every
generation). -/
def allEvaluated (e : Engine) : Prop :=
  ∀ ind ∈ e.population, ind.evaluated = true

/-- A small valid test configuration: population 4 (divisible by 4),
one chromosome of one 1-bit gene. -/
def testConfig4 : Config :=
  { defaultConfig with
    population_size := 4, max_generations := 1, number_of_vectors := 1, dimension := 1,
    min_real := -1, max_real := 1, integer_bits := 1, integer_width := 32,
    tournament_size := 2, enable_elitism := true, enable_auto_adaptation := false }

/-- The same configuration with population 6: even (so accepted by
`validate`), but with an odd half population size. -/
def testConfig6 : Config := { testConfig4 with population_size := 6 }

/-- A concrete fitness function for the test runs: the first decoded
coordinate. -/
def testFitness : FitnessFunction := fun vecs => (vecs.headD []).headD 0

/-- The engine freshly constructed from the small test configuration
with seed 42. -/
def testEngine4 : Engine := ((mkEngine testConfig4 testFitness 42 0).toOption).getD default

/-- The engine freshly constructed from the population-6 configuration
with seed 42. -/
def testEngine6 : Engine := ((mkEngine testConfig6 testFitness 42 0).toOption).getD default

/-- Write the values of `ws` into consecutive slots of `l` starting at
slot `i` (the way the selection loop fills the selected buffer). -/
def setFrom {α : Type} (l : List α) (i : Nat) : List α → List α
  | [] => l
  | w :: ws => setFrom (l.set i w) (i + 1) ws

/-- The state of the small test engine after one generation step. -/
def testEngine4' : Engine := (step testFitness testEngine4).getD default

/-- The small test engine after one selection call. -/
def testEngineSel : Engine := (selection testFitness testEngine4).getD default

/-- A concrete selection round on the small test engine's population. -/
def testRound : Individu × List Individu × Nat × Nat :=
  (selectionRound testConfig4 testFitness testEngine4.population testEngine4.rng).getD
    default

/-- The small test engine after its full run. -/
def testEngine4run : Engine := (run testFitness testEngine4).getD default

/-- A configuration with two 2-bit genes per chromosome, for exercising
the single-point crossover. -/
def testConfigC5 : Config :=
  { defaultConfig with
    number_of_vectors := 1, dimension := 2, integer_bits := 2, integer_width := 4 }

/-- A concrete parent individual for the crossover witness. -/
def indA : Individu := ⟨[[1, 2]], [0, 0], 0, false⟩

/-- A second concrete parent individual for the crossover witness. -/
def indB : Individu := ⟨[[2, 3]], [1, 1], 0, false⟩

/-- The cut point the single-point crossover draws from generator state
`s` for a data chromosome. -/
def spCut (cfg : Config) (s : Nat) : Nat :=
  (uniformNat 0 (cfg.dimension * cfg.integer_bits - 1) s).1

/-- The chromosome produced for the child that keeps parent `pa` below
the cut: genes below `k = cut / bits` from `pa`, the cut gene spliced
with the mask `(1 << k') - 1`, genes above `k` from `pb` (written from
the claim's description of the result). -/
def spListChild (cfg : Config) (pa pb : Individu) (chromo cut : Nat) (start : List Nat) :
    List Nat :=
  let k := cut / cfg.integer_bits
  let k' := cut % cfg.integer_bits
  let mask1 := (1 <<< k') - 1
  let mask2 := (2 ^ cfg.integer_width - 1) ^^^ mask1
  (List.range' (k + 1) (cfg.dimension - (k + 1))).foldl
    (fun g i => g.set i (pb.get_gene chromo i))
    (((List.range k).foldl (fun g i => g.set i (pa.get_gene chromo i)) start).set k
      ((pa.get_gene chromo k &&& mask1) ||| (pb.get_gene chromo k &&& mask2)))

/-- The expected value of gene `i` of the child that keeps parent `pa`
below the cut (from the claim: genes before `k` from the respective
parent, gene `k` bit-spliced with mask `(1 << k') - 1`, genes after `k`
from the other parent). -/
def spExpectedGene (cfg : Config) (pa pb : Individu) (chromo cut i : Nat) : Nat :=
  let k := cut / cfg.integer_bits
  let k' := cut % cfg.integer_bits
  let mask1 := (1 <<< k') - 1
  let mask2 := (2 ^ cfg.integer_width - 1) ^^^ mask1
  if i < k then pa.get_gene chromo i
  else if i = k then (pa.get_gene chromo k &&& mask1) ||| (pb.get_gene chromo k &&& mask2)
  else pb.get_gene chromo i

/-- The default configuration with an inverted real range. -/
def cfgBadRange : Config := { defaultConfig with min_real := 10, max_real := -10 }

/-- The default configuration with an odd population size. -/
def cfgOddPop : Config := { defaultConfig with population_size := 101 }

/-! From here on: the lemmas and the claim theorems. -/

/-- C2 (spec-modelled codec): for every bit width `1 ≤ bits ≤ w` and
every `bin` in `[0, 2^bits - 1]`, `decode` computes
`min + (bin / (2^bits - 1)) * (max - min)`; it is exactly `min` at
`bin = 0`, exactly `max` at `bin = 2^bits - 1`, and is monotone
non-decreasing in `bin`. -/
theorem C2_decode_contract (bin bits w : Nat) (mn mx : ℚ)
    (hb : 1 ≤ bits) (hw : bits ≤ w) (hmm : mn < mx) (hbin : bin ≤ 2 ^ bits - 1) :
    bin_to_real bin mn mx bits = mn + ((bin : ℚ) / ((2 ^ bits : ℚ) - 1)) * (mx - mn) ∧
    bin_to_real 0 mn mx bits = mn ∧
    bin_to_real (2 ^ bits - 1) mn mx bits = mx ∧
    (∀ b b' : Nat, b ≤ b' → bin_to_real b mn mx bits ≤ bin_to_real b' mn mx bits) := by
  have hpow : (1 : ℚ) < 2 ^ bits := by
    calc (1 : ℚ) < 2 ^ 1 := by norm_num
    _ ≤ 2 ^ bits := by
      apply pow_le_pow_right₀ ?_ hb
      norm_num
  have hden : (0 : ℚ) < (2 ^ bits : ℚ) - 1 := by linarith
  refine ⟨rfl, ?_, ?_, ?_⟩
  · simp [bin_to_real]
  · have hcast : (((2 : Nat) ^ bits - 1 : Nat) : ℚ) = (2 ^ bits : ℚ) - 1 := by
      have h2 : (1 : Nat) ≤ 2 ^ bits := Nat.one_le_two_pow
      push_cast [h2]
      ring
    rw [bin_to_real, hcast, div_self (ne_of_gt hden)]
    ring
  · intro b b' hbb
    rw [bin_to_real, bin_to_real]
    have h1 : ((b : ℚ) / ((2 ^ bits : ℚ) - 1)) ≤ ((b' : ℚ) / ((2 ^ bits : ℚ) - 1)) := by
      apply (div_le_div_right hden).mpr
      exact_mod_cast hbb
    have h2 : (0 : ℚ) ≤ mx - mn := by linarith
    nlinarith

/-- C2 witness: the contract instantiated at the test suite's 16-bit
configuration on the range `[-10, 10]`. -/
theorem C2_decode_contract_witness :
    (1 ≤ 16 ∧ (16 : Nat) ≤ 32 ∧ (-10 : ℚ) < 10 ∧ 65535 ≤ 2 ^ 16 - 1) ∧
    bin_to_real 0 (-10) 10 16 = -10 ∧
    bin_to_real (2 ^ 16 - 1) (-10) 10 16 = 10 :=
  ⟨⟨by norm_num, by norm_num, by norm_num, by norm_num⟩,
   (C2_decode_contract 65535 16 32 (-10) 10 (by norm_num) (by norm_num) (by norm_num)
      (by norm_num)).2.1,
   (C2_decode_contract 65535 16 32 (-10) 10 (by norm_num) (by norm_num) (by norm_num)
      (by norm_num)).2.2.1⟩

/-- C8 (spec-modelled validation): `validate` accepts the default
configuration; it fails with the invalid-argument error whenever
`min_real >= max_real` and whenever `population_size` is odd; and a
failed validation surfaces synchronously from the constructor and from
`reset`, before any population work. -/
theorem C8_validate_behaviour (c : Config) :
    Config.validate defaultConfig = .ok () ∧
    (c.min_real ≥ c.max_real → c.validate = .error .invalid_argument) ∧
    (c.population_size % 2 = 1 → c.validate = .error .invalid_argument) ∧
    (∀ err f seed entropy, c.validate = .error err → mkEngine c f seed entropy = .error err) ∧
    (∀ err f e, c.validate = .error err → reset c f e = .error err) := by
  refine ⟨rfl, ?_, ?_, ?_, ?_⟩
  · intro hge
    simp only [Config.validate]
    split_ifs <;> rfl
  · intro hodd
    have h0 : ¬(c.population_size = 0) := by omega
    have h2 : c.population_size % 2 ≠ 0 := by omega
    rw [Config.validate, if_neg h0, if_pos h2]
  · intro err f seed entropy h
    unfold mkEngine
    rw [h]
  · intro err f e h
    unfold reset
    rw [h]

/-- C8 witness: the validation behaviour at the concrete default, the
inverted-range and the odd-population configurations. -/
theorem C8_validate_behaviour_witness :
    Config.validate defaultConfig = .ok () ∧
    cfgBadRange.validate = .error .invalid_argument ∧
    cfgOddPop.validate = .error .invalid_argument ∧
    mkEngine cfgBadRange testFitness 1 0 = .error .invalid_argument :=
  ⟨(C8_validate_behaviour defaultConfig).1,
   (C8_validate_behaviour cfgBadRange).2.1 (by decide),
   (C8_validate_behaviour cfgOddPop).2.2.1 (by decide),
   (C8_validate_behaviour cfgBadRange).2.2.2.1 .invalid_argument testFitness 1 0
     ((C8_validate_behaviour cfgBadRange).2.1 (by decide))⟩

/-- C3: when the seed is non-zero the constructed engine, and hence the
best-fitness value at every generation of the run, is a function of the
configuration, the fitness function and the seed alone -- the entropy
source is not consulted, so two engines built from the same non-zero
seed produce identical best-fitness sequences. -/
theorem C3_seed_determinism (cfg : Config) (f : FitnessFunction) (seed e1 e2 : Nat)
    (h : seed ≠ 0) :
    mkEngine cfg f seed e1 = mkEngine cfg f seed e2 ∧
    engineTrace cfg f seed e1 = engineTrace cfg f seed e2 := by
  have hif : (if seed = 0 then e1 else seed) = (if seed = 0 then e2 else seed) := by
    simp [h]
  constructor
  · unfold mkEngine
    rw [hif]
  · unfold engineTrace mkEngine
    rw [hif]

/-- C3 witness: the small test configuration run from seed 42 under two
different entropy values. -/
theorem C3_seed_determinism_witness :
    (42 : Nat) ≠ 0 ∧
    engineTrace testConfig4 testFitness 42 0 = engineTrace testConfig4 testFitness 42 999 :=
  ⟨by decide, (C3_seed_determinism testConfig4 testFitness 42 0 999 (by decide)).2⟩

theorem getD_set_self {α : Type} (l : List α) (n : Nat) (a d : α) (h : n < l.length) :
    (l.set n a).getD n d = a := by
  simp [List.getD_eq_getElem?_getD, List.getElem?_set_self h]

theorem getD_set_ne {α : Type} (l : List α) {n m : Nat} (h : n ≠ m) (a d : α) :
    (l.set n a).getD m d = l.getD m d := by
  simp [List.getD_eq_getElem?_getD, List.getElem?_set_ne h]

theorem set_getD_self {α : Type} (l : List α) (n : Nat) (d : α) (h : n < l.length) :
    l.set n (l.getD n d) = l := by
  apply List.ext_getElem?
  intro i
  by_cases hi : i = n
  · subst hi
    rw [List.getElem?_set_self h]
    simp [List.getD_eq_getElem?_getD, List.getElem?_eq_getElem h]
  · rw [List.getElem?_set_ne (fun hc => hi hc.symm)]

/-- A fold writing the two pair components independently splits into two
independent folds. -/
theorem foldl_pair_set_gene (chromo : Nat) (F G : Nat → Nat) (l : List Nat)
    (cc : Individu × Individu) :
    l.foldl (fun cc i => (Individu.set_gene cc.1 chromo i (F i),
        Individu.set_gene cc.2 chromo i (G i))) cc
      = (l.foldl (fun c i => Individu.set_gene c chromo i (F i)) cc.1,
         l.foldl (fun c i => Individu.set_gene c chromo i (G i)) cc.2) := by
  induction l generalizing cc with
  | nil => rfl
  | cons x xs ih => simp [List.foldl_cons, ih]

/-- Writes into one chromosome project onto the chromosome list. -/
theorem foldl_set_gene_genes (chromo : Nat) (F : Nat → Nat) (l : List Nat) (ind : Individu) :
    (l.foldl (fun c i => Individu.set_gene c chromo i (F i)) ind).genes
      = ind.genes.set chromo
          (l.foldl (fun g i => g.set i (F i)) (ind.genes.getD chromo [])) := by
  induction l generalizing ind with
  | nil =>
    rw [List.foldl_nil, List.foldl_nil]
    by_cases hc : chromo < ind.genes.length
    · exact (set_getD_self _ _ _ hc).symm
    · exact (List.set_eq_of_length_le (by omega)).symm
  | cons x xs ih =>
    rw [List.foldl_cons, List.foldl_cons, ih]
    by_cases hc : chromo < ind.genes.length
    · have hg : (Individu.set_gene ind chromo x (F x)).genes
          = ind.genes.set chromo ((ind.genes.getD chromo []).set x (F x)) := rfl
      rw [hg, getD_set_self _ _ _ _ hc, List.set_set]
    · have hg : (Individu.set_gene ind chromo x (F x)).genes = ind.genes := by
        show ind.genes.set chromo _ = ind.genes
        exact List.set_eq_of_length_le (by omega)
      rw [hg, List.set_eq_of_length_le (by omega), List.set_eq_of_length_le (by omega)]

theorem foldl_set_length (F : Nat → Nat) (ws : List Nat) (l : List Nat) :
    (ws.foldl (fun g i => g.set i (F i)) l).length = l.length := by
  induction ws generalizing l with
  | nil => rfl
  | cons x xs ih => simp [List.foldl_cons, ih]

/-- Contents after the `for (i = 0; i < k; i++)` write loop. -/
theorem foldl_set_range_getD (F : Nat → Nat) (k : Nat) (l : List Nat) (i d : Nat) :
    ((List.range k).foldl (fun g j => g.set j (F j)) l).getD i d
      = if i < k ∧ i < l.length then F i else l.getD i d := by
  induction k with
  | zero => simp
  | succ k ih =>
    rw [List.range_succ, List.foldl_append, List.foldl_cons, List.foldl_nil]
    by_cases hik : i = k
    · by_cases hil : i < l.length
      · rw [hik] at hil ⊢
        rw [getD_set_self _ _ _ _ (by rw [foldl_set_length]; exact hil)]
        split_ifs <;> first | rfl | omega
      · rw [List.set_eq_of_length_le (by rw [foldl_set_length]; omega), ih]
        split_ifs <;> first | rfl | omega
    · rw [getD_set_ne _ (fun hc => hik hc.symm), ih]
      split_ifs <;> first | rfl | omega

/-- Contents after the `for (i = k + 1; i < dimension; i++)` write loop. -/
theorem foldl_set_range'_getD (F : Nat → Nat) (n : Nat) :
    ∀ (a : Nat) (l : List Nat) (i d : Nat),
      ((List.range' a n).foldl (fun g j => g.set j (F j)) l).getD i d
        = if a ≤ i ∧ i < a + n ∧ i < l.length then F i else l.getD i d := by
  induction n with
  | zero =>
    intro a l i d
    rw [List.range'_zero, List.foldl_nil, if_neg (by omega)]
  | succ n ih =>
    intro a l i d
    rw [List.range'_succ, List.foldl_cons, ih]
    simp only [List.length_set]
    by_cases hia : i = a
    · by_cases hil : i < l.length
      · rw [hia] at hil ⊢
        rw [getD_set_self _ _ _ _ hil]
        split_ifs <;> first | rfl | omega
      · rw [List.set_eq_of_length_le (by omega)]
        split_ifs <;> first | rfl | omega
    · rw [getD_set_ne _ (fun hc => hia hc.symm)]
      split_ifs <;> first | rfl | omega

/-- The bit-spliced cut gene reads parent 1 below the cut offset and
parent 2 from the cut offset up (within the integer width). -/
theorem spliceGene_testBit (W kp g1 g2 b : Nat) (hbW : b < W) :
    ((g1 &&& ((1 <<< kp) - 1)) ||| (g2 &&& ((2 ^ W - 1) ^^^ ((1 <<< kp) - 1)))).testBit b
      = if b < kp then g1.testBit b else g2.testBit b := by
  rw [Nat.one_shiftLeft]
  by_cases hb : b < kp <;>
    simp [Nat.testBit_or, Nat.testBit_and, Nat.testBit_xor, Nat.testBit_two_pow_sub_one,
      hb, hbW]

theorem set_gene_genes (ind : Individu) (c i v : Nat) :
    (ind.set_gene c i v).genes = ind.genes.set c ((ind.genes.getD c []).set i v) := rfl

/-- Structural shape of the single-point crossover: each child's genes
are its own genes with the worked chromosome replaced by the list the
three source loops build. -/
theorem sp_genes_eq (cfg : Config) (p1 p2 c1 c2 : Individu) (chromo s : Nat)
    (hc1 : chromo < c1.genes.length) (hc2 : chromo < c2.genes.length)
    (hk : spCut cfg s / cfg.integer_bits < cfg.dimension) :
    (bit_level_crossover_single_point_bit_level cfg p1 p2 c1 c2 chromo s).1.genes
        = c1.genes.set chromo
            (spListChild cfg p1 p2 chromo (spCut cfg s) (c1.genes.getD chromo [])) ∧
    (bit_level_crossover_single_point_bit_level cfg p1 p2 c1 c2 chromo s).2.1.genes
        = c2.genes.set chromo
            (spListChild cfg p2 p1 chromo (spCut cfg s) (c2.genes.getD chromo [])) := by
  rcases hu : uniformNat 0 (cfg.dimension * cfg.integer_bits - 1) s with ⟨cp, s2⟩
  have hcp : spCut cfg s = cp := by rw [spCut, hu]
  rw [hcp] at hk ⊢
  simp only [bit_level_crossover_single_point_bit_level, hu, if_pos hk,
    foldl_pair_set_gene]
  constructor
  · simp only [foldl_set_gene_genes, set_gene_genes, List.set_set, getD_set_self, hc1,
      List.length_set, spListChild]
  · simp only [foldl_set_gene_genes, set_gene_genes, List.set_set, getD_set_self, hc2,
      List.length_set, spListChild]

/-- One gene of the child chromosome built by the three loops. -/
theorem spListChild_getD (cfg : Config) (pa pb : Individu) (chromo cut : Nat)
    (start : List Nat) (hlen : start.length = cfg.dimension)
    (hk : cut / cfg.integer_bits < cfg.dimension) (i : Nat) (hi : i < cfg.dimension) :
    (spListChild cfg pa pb chromo cut start).getD i 0
      = spExpectedGene cfg pa pb chromo cut i := by
  simp only [spListChild, spExpectedGene]
  rw [foldl_set_range'_getD]
  have hLK : ((List.range (cut / cfg.integer_bits)).foldl
      (fun g i => g.set i (pa.get_gene chromo i)) start).length = cfg.dimension := by
    rw [foldl_set_length, hlen]
  simp only [List.length_set, hLK]
  by_cases hik : i = cut / cfg.integer_bits
  · rw [hik, getD_set_self _ _ _ _ (by omega)]
    split_ifs <;> first | rfl | omega
  · rw [getD_set_ne _ (fun hc => hik hc.symm), foldl_set_range_getD]
    split_ifs <;> first | rfl | omega

/-- Per-gene characterisation of both single-point crossover children. -/
theorem sp_child_gene (cfg : Config) (p1 p2 c1 c2 : Individu) (chromo s : Nat)
    (hc1 : chromo < c1.genes.length) (hc2 : chromo < c2.genes.length)
    (hl1 : (c1.genes.getD chromo []).length = cfg.dimension)
    (hl2 : (c2.genes.getD chromo []).length = cfg.dimension)
    (hk : spCut cfg s / cfg.integer_bits < cfg.dimension) :
    ∀ i, i < cfg.dimension →
      ((bit_level_crossover_single_point_bit_level cfg p1 p2 c1 c2 chromo s).1.genes.getD
          chromo []).getD i 0 = spExpectedGene cfg p1 p2 chromo (spCut cfg s) i ∧
      ((bit_level_crossover_single_point_bit_level cfg p1 p2 c1 c2 chromo s).2.1.genes.getD
          chromo []).getD i 0 = spExpectedGene cfg p2 p1 chromo (spCut cfg s) i := by
  intro i hi
  obtain ⟨h1, h2⟩ := sp_genes_eq cfg p1 p2 c1 c2 chromo s hc1 hc2 hk
  rw [h1, h2, getD_set_self _ _ _ _ hc1, getD_set_self _ _ _ _ hc2]
  exact ⟨spListChild_getD cfg p1 p2 chromo _ _ hl1 hk i hi,
    spListChild_getD cfg p2 p1 chromo _ _ hl2 hk i hi⟩

/-- The cut drawn for a chromosome stays below the flattened bit
range. -/
theorem spCut_lt (cfg : Config) (s : Nat) (hD : 1 ≤ cfg.dimension)
    (hB : 1 ≤ cfg.integer_bits) :
    spCut cfg s < cfg.dimension * cfg.integer_bits := by
  have hDB : 0 < cfg.dimension * cfg.integer_bits := Nat.mul_pos (by omega) (by omega)
  have h1 : cfg.dimension * cfg.integer_bits - 1 - 0 + 1
      = cfg.dimension * cfg.integer_bits := by omega
  simp only [spCut, uniformNat, rngNext, h1]
  have := Nat.mod_lt (rngMix (rngStep s)) hDB
  omega

/-- C5: for every pair of parents, every chromosome and every generator
state, single-point bit-level crossover draws a cut in the flattened bit
range `[0, dimension * integer_bits)` and produces child 1 whose
flattened chromosome bits are parent 1's bits below the cut and
parent 2's bits at and above it (genes before `k = cut / bits` from the
respective parent, gene `k` spliced with mask `(1 << k') - 1`, genes
after `k` swapped); child 2 is the mirror image, and at every bit
position the two children's bits are a permutation of the two parents'
bits. -/
theorem C5_single_point_bit_exchange (cfg : Config) (p1 p2 c1 c2 : Individu) (chromo s : Nat)
    (hB : 1 ≤ cfg.integer_bits) (hBW : cfg.integer_bits ≤ cfg.integer_width)
    (hD : 1 ≤ cfg.dimension)
    (hc1 : chromo < c1.genes.length) (hc2 : chromo < c2.genes.length)
    (hl1 : (c1.genes.getD chromo []).length = cfg.dimension)
    (hl2 : (c2.genes.getD chromo []).length = cfg.dimension) :
    spCut cfg s < cfg.dimension * cfg.integer_bits ∧
    ∀ pos, pos < cfg.dimension * cfg.integer_bits →
      (flatBit cfg.integer_bits
            ((bit_level_crossover_single_point_bit_level cfg p1 p2 c1 c2 chromo
              s).1.genes.getD chromo []) pos
          = if pos < spCut cfg s
            then flatBit cfg.integer_bits (p1.genes.getD chromo []) pos
            else flatBit cfg.integer_bits (p2.genes.getD chromo []) pos) ∧
      (flatBit cfg.integer_bits
            ((bit_level_crossover_single_point_bit_level cfg p1 p2 c1 c2 chromo
              s).2.1.genes.getD chromo []) pos
          = if pos < spCut cfg s
            then flatBit cfg.integer_bits (p2.genes.getD chromo []) pos
            else flatBit cfg.integer_bits (p1.genes.getD chromo []) pos) ∧
      ((flatBit cfg.integer_bits
            ((bit_level_crossover_single_point_bit_level cfg p1 p2 c1 c2 chromo
              s).1.genes.getD chromo []) pos
            = flatBit cfg.integer_bits (p1.genes.getD chromo []) pos ∧
        flatBit cfg.integer_bits
            ((bit_level_crossover_single_point_bit_level cfg p1 p2 c1 c2 chromo
              s).2.1.genes.getD chromo []) pos
            = flatBit cfg.integer_bits (p2.genes.getD chromo []) pos) ∨
       (flatBit cfg.integer_bits
            ((bit_level_crossover_single_point_bit_level cfg p1 p2 c1 c2 chromo
              s).1.genes.getD chromo []) pos
            = flatBit cfg.integer_bits (p2.genes.getD chromo []) pos ∧
        flatBit cfg.integer_bits
            ((bit_level_crossover_single_point_bit_level cfg p1 p2 c1 c2 chromo
              s).2.1.genes.getD chromo []) pos
            = flatBit cfg.integer_bits (p1.genes.getD chromo []) pos)) := by
  have hcut := spCut_lt cfg s hD hB
  have hk : spCut cfg s / cfg.integer_bits < cfg.dimension :=
    (Nat.div_lt_iff_lt_mul (by omega)).mpr hcut
  refine ⟨hcut, ?_⟩
  intro pos hpos
  have hb : pos % cfg.integer_bits < cfg.integer_bits := Nat.mod_lt _ (by omega)
  have hidx : pos / cfg.integer_bits < cfg.dimension :=
    (Nat.div_lt_iff_lt_mul (by omega)).mpr hpos
  obtain ⟨h1, h2⟩ := sp_child_gene cfg p1 p2 c1 c2 chromo s hc1 hc2 hl1 hl2 hk
    (pos / cfg.integer_bits) hidx
  have hposeq : cfg.integer_bits * (pos / cfg.integer_bits) + pos % cfg.integer_bits
      = pos := Nat.div_add_mod pos cfg.integer_bits
  have hcuteq : cfg.integer_bits * (spCut cfg s / cfg.integer_bits)
      + spCut cfg s % cfg.integer_bits = spCut cfg s := Nat.div_add_mod _ _
  have hkp : spCut cfg s % cfg.integer_bits < cfg.integer_bits := Nat.mod_lt _ (by omega)
  simp only [flatBit, h1, h2, spExpectedGene]
  have suffices_both :
      ((spExpectedGene cfg p1 p2 chromo (spCut cfg s) (pos / cfg.integer_bits)).testBit
        (pos % cfg.integer_bits)
        = if pos < spCut cfg s
          then ((p1.genes.getD chromo []).getD (pos / cfg.integer_bits) 0).testBit
            (pos % cfg.integer_bits)
          else ((p2.genes.getD chromo []).getD (pos / cfg.integer_bits) 0).testBit
            (pos % cfg.integer_bits)) ∧
      ((spExpectedGene cfg p2 p1 chromo (spCut cfg s) (pos / cfg.integer_bits)).testBit
        (pos % cfg.integer_bits)
        = if pos < spCut cfg s
          then ((p2.genes.getD chromo []).getD (pos / cfg.integer_bits) 0).testBit
            (pos % cfg.integer_bits)
          else ((p1.genes.getD chromo []).getD (pos / cfg.integer_bits) 0).testBit
            (pos % cfg.integer_bits)) := by
    have key : ∀ pa pb : Individu,
        (spExpectedGene cfg pa pb chromo (spCut cfg s) (pos / cfg.integer_bits)).testBit
          (pos % cfg.integer_bits)
          = if pos < spCut cfg s
            then ((pa.genes.getD chromo []).getD (pos / cfg.integer_bits) 0).testBit
              (pos % cfg.integer_bits)
            else ((pb.genes.getD chromo []).getD (pos / cfg.integer_bits) 0).testBit
              (pos % cfg.integer_bits) := by
      intro pa pb
      simp only [spExpectedGene]
      rcases Nat.lt_trichotomy (pos / cfg.integer_bits) (spCut cfg s / cfg.integer_bits)
        with hik | hik | hik
      · have hlt : pos < spCut cfg s := by
          have h' : pos / cfg.integer_bits + 1 ≤ spCut cfg s / cfg.integer_bits := hik
          have hm := Nat.mul_le_mul_left cfg.integer_bits h'
          rw [Nat.mul_add, Nat.mul_one] at hm
          omega
        rw [if_pos hik, if_pos hlt, Individu.get_gene]
      · have hiff : pos < spCut cfg s ↔ pos % cfg.integer_bits
            < spCut cfg s % cfg.integer_bits := by
          rw [hik] at hposeq
          omega
        rw [if_neg (by omega), if_pos hik,
          spliceGene_testBit cfg.integer_width _ _ _ _ (by omega), hik,
          Individu.get_gene, Individu.get_gene]
        by_cases hbk : pos % cfg.integer_bits < spCut cfg s % cfg.integer_bits
        · rw [if_pos hbk, if_pos (hiff.mpr hbk)]
        · rw [if_neg hbk, if_neg (fun hc => hbk (hiff.mp hc))]
      · have hge : ¬(pos < spCut cfg s) := by
          have h' : spCut cfg s / cfg.integer_bits + 1 ≤ pos / cfg.integer_bits := hik
          have hm := Nat.mul_le_mul_left cfg.integer_bits h'
          rw [Nat.mul_add, Nat.mul_one] at hm
          omega
        rw [if_neg (by omega), if_neg (by omega), if_neg hge, Individu.get_gene]
    exact ⟨key p1 p2, key p2 p1⟩
  obtain ⟨hb1, hb2⟩ := suffices_both
  simp only [spExpectedGene] at hb1 hb2
  refine ⟨hb1, hb2, ?_⟩
  by_cases hlt : pos < spCut cfg s
  · left
    rw [hb1, hb2, if_pos hlt, if_pos hlt]
    exact ⟨rfl, rfl⟩
  · right
    rw [hb1, hb2, if_neg hlt, if_neg hlt]
    exact ⟨rfl, rfl⟩

theorem bestLE_refl (a : Option ℚ) : bestLE a a := by
  cases a <;> simp [bestLE]

theorem bestLE_trans {a b c : Option ℚ} (h1 : bestLE a b) (h2 : bestLE b c) : bestLE a c := by
  cases a <;> cases b <;> cases c <;> simp_all [bestLE]
  exact le_trans h1 h2

/-- Behaviour of the evaluation cache: the result is evaluated, carries
the returned fitness, has the genotype untouched; a cached individual is
returned as is with no fitness-function call, an uncached one costs
exactly one call. -/
theorem evaluate_spec (cfg : Config) (f : FitnessFunction) (ind : Individu) :
    (evaluate cfg f ind).2.1.evaluated = true ∧
    (evaluate cfg f ind).2.1.fitness = (evaluate cfg f ind).1 ∧
    (evaluate cfg f ind).2.1.genes = ind.genes ∧
    (evaluate cfg f ind).2.1.mutation_probas = ind.mutation_probas ∧
    (ind.evaluated = true → evaluate cfg f ind = (ind.fitness, ind, 0)) ∧
    (ind.evaluated = false → (evaluate cfg f ind).2.2 = 1) := by
  by_cases h : ind.evaluated <;>
    simp [evaluate, Individu.have_been_evaluated, h, Individu.set_fitness,
      Individu.get_fitness]

theorem betterThan_le (v : ℚ) (b : Option ℚ) :
    bestLE b (if betterThan v b then some v else b) ∧
    bestLE (some v) (if betterThan v b then some v else b) := by
  cases b with
  | none => simp [betterThan, bestLE]
  | some x =>
    by_cases h : x < v
    · have hb : betterThan v (some x) = true := by simp [betterThan, h]
      simp only [hb, if_true]
      exact ⟨le_of_lt h, le_refl v⟩
    · have hb : betterThan v (some x) = false := by simp [betterThan, h]
      simp only [hb, Bool.false_eq_true, if_false]
      exact ⟨le_refl x, le_of_not_lt h⟩

/-- The full-population scan of `update_best`: the tracked best never
decreases, and afterwards every stored individual is evaluated with its
fitness dominated by the tracked best; the population length is
unchanged. -/
theorem updateBestGo_spec (cfg : Config) (f : FitnessFunction) :
    ∀ (pop : List Individu) (b : Option ℚ) (bi : Individu) (c : Nat),
      bestLE b (updateBestGo cfg f pop b bi c).2.1 ∧
      (∀ ind' ∈ (updateBestGo cfg f pop b bi c).1,
        ind'.evaluated = true ∧ bestLE (some ind'.fitness) (updateBestGo cfg f pop b bi c).2.1) ∧
      (updateBestGo cfg f pop b bi c).1.length = pop.length := by
  intro pop
  induction pop with
  | nil => intro b bi c; exact ⟨bestLE_refl b, by simp [updateBestGo], rfl⟩
  | cons ind rest ih =>
    intro b bi c
    obtain ⟨hev, hfit, _, _, _, _⟩ := evaluate_spec cfg f ind
    rcases hu : evaluate cfg f ind with ⟨v, indE, c1⟩
    rw [hu] at hev hfit
    simp only at hev hfit
    have hbt := betterThan_le v b
    by_cases hcond : betterThan v b
    · rw [if_pos hcond] at hbt
      simp only [updateBestGo, hu, hcond, if_true]
      obtain ⟨ihle, ihmem, ihlen⟩ := ih (some v) indE (c + c1)
      rcases hr : updateBestGo cfg f rest (some v) indE (c + c1) with ⟨rest', b'', bi'', c''⟩
      rw [hr] at ihle ihmem ihlen
      simp only at ihle ihmem ihlen
      simp only [hr]
      refine ⟨bestLE_trans hbt.1 ihle, ?_, by simpa using ihlen⟩
      intro x hx
      rcases List.mem_cons.mp hx with hx | hx
      · subst hx
        exact ⟨hev, by rw [hfit]; exact bestLE_trans hbt.2 ihle⟩
      · exact ihmem x hx
    · rw [if_neg hcond] at hbt
      simp only [updateBestGo, hu, hcond, Bool.false_eq_true, if_false]
      obtain ⟨ihle, ihmem, ihlen⟩ := ih b bi (c + c1)
      rcases hr : updateBestGo cfg f rest b bi (c + c1) with ⟨rest', b'', bi'', c''⟩
      rw [hr] at ihle ihmem ihlen
      simp only at ihle ihmem ihlen
      simp only [hr]
      refine ⟨ihle, ?_, by simpa using ihlen⟩
      intro x hx
      rcases List.mem_cons.mp hx with hx | hx
      · subst hx
        exact ⟨hev, by rw [hfit]; exact bestLE_trans hbt.2 ihle⟩
      · exact ihmem x hx

/-- `update_best` on the engine: monotone tracked best dominating every
member of the (evaluated, same-length) population; config, generation
counter, selected buffer and generator are untouched. -/
theorem update_best_spec (f : FitnessFunction) (e : Engine) :
    bestLE e.best_fitness (update_best f e).best_fitness ∧
    (∀ ind' ∈ (update_best f e).population,
      ind'.evaluated = true ∧ bestLE (some ind'.fitness) (update_best f e).best_fitness) ∧
    (update_best f e).population.length = e.population.length ∧
    (update_best f e).config = e.config ∧
    (update_best f e).selected = e.selected ∧
    (update_best f e).rng = e.rng ∧
    (update_best f e).current_generation = e.current_generation := by
  obtain ⟨h1, h2, h3⟩ := updateBestGo_spec e.config f e.population e.best_fitness
    e.best_individual 0
  exact ⟨h1, h2, h3, rfl, rfl, rfl, rfl⟩

/-- `selection` changes only the population caches, the selected buffer,
the generator state and the ghost counters. -/
theorem selection_frame (f : FitnessFunction) (e e' : Engine)
    (h : selection f e = some e') :
    e'.best_fitness = e.best_fitness ∧ e'.best_individual = e.best_individual ∧
    e'.config = e.config ∧ e'.current_generation = e.current_generation := by
  unfold selection at h
  rcases hm : selectionLoop e.config f e.config.get_half_population_size 0
      e.population e.selected e.rng 0 with _ | ⟨pop', sel', s', cc⟩ <;> rw [hm] at h
  · cases h
  · cases h
    exact ⟨rfl, rfl, rfl, rfl⟩

/-- `create_offspring` changes only the population, the selected buffer
order, the generator state and the ghost log. -/
theorem create_offspring_frame (e e' : Engine) (h : create_offspring e = some e') :
    e'.best_fitness = e.best_fitness ∧ e'.best_individual = e.best_individual ∧
    e'.config = e.config ∧ e'.current_generation = e.current_generation := by
  unfold create_offspring at h
  rcases hs1 : shuffleList e.selected e.rng with ⟨sel1, s1⟩
  rw [hs1] at h
  simp only at h
  rcases hm1 : offspringGo e.config sel1 0 (pairStarts sel1.length) e.population s1
    with _ | ⟨pop1, s2, kids1⟩ <;> rw [hm1] at h
  · cases h
  · simp only at h
    rcases hs2 : shuffleList sel1 s2 with ⟨sel2, s3⟩
    rw [hs2] at h
    simp only at h
    rcases hm2 : offspringGo e.config sel2 sel2.length (pairStarts sel2.length) pop1 s3
      with _ | ⟨pop2, s4, kids2⟩ <;> rw [hm2] at h
    · cases h
    · simp only at h
      cases h
      exact ⟨rfl, rfl, rfl, rfl⟩

/-- `mutate_population` changes only the population, the generator state
and the ghost log. -/
theorem mutate_population_frame (e : Engine) :
    (mutate_population e).best_fitness = e.best_fitness ∧
    (mutate_population e).best_individual = e.best_individual ∧
    (mutate_population e).config = e.config ∧
    (mutate_population e).current_generation = e.current_generation ∧
    (mutate_population e).selected = e.selected ∧
    (mutate_population e).population.length = e.population.length := by
  refine ⟨rfl, rfl, rfl, rfl, rfl, ?_⟩
  show (mapState (Individu.mutate e.config) e.population e.rng).1.length = _
  generalize e.rng = s
  induction e.population generalizing s with
  | nil => rfl
  | cons x xs ih =>
    simp only [mapState]
    rcases Individu.mutate e.config x s with ⟨y, s'⟩
    simp [ih s']

/-- `add_best` changes only one population slot and the generator
state. -/
theorem add_best_frame (e e' : Engine) (h : add_best e = some e') :
    e'.best_fitness = e.best_fitness ∧ e'.best_individual = e.best_individual ∧
    e'.config = e.config ∧ e'.current_generation = e.current_generation ∧
    e'.selected = e.selected ∧ e'.population.length = e.population.length := by
  unfold add_best at h
  rcases hu : uniformNat 0 (e.config.population_size - 1) e.rng with ⟨idx, s'⟩
  rw [hu] at h
  simp only at h
  by_cases hc : idx < e.population.length
  · rw [if_pos hc] at h
    cases h
    exact ⟨rfl, rfl, rfl, rfl, rfl, by simp⟩
  · rw [if_neg hc] at h
    cases h

/-- C6: over one generation step the tracked best fitness never
decreases (so with elitism enabled it is non-decreasing across
generations), and because `update_best` runs unconditionally at the end
of the step -- whether or not elitism is enabled -- the resulting best
fitness dominates the fitness of every individual of the new
population, all of which are freshly evaluated. -/
theorem C6_best_fitness_monotone (f : FitnessFunction) (e e' : Engine)
    (h : step f e = some e') :
    bestLE e.best_fitness e'.best_fitness ∧
    ∀ ind ∈ e'.population, ind.evaluated = true ∧ bestLE (some ind.fitness) e'.best_fitness := by
  unfold step at h
  rcases h1 : selection f e with _ | e1 <;> rw [h1] at h
  · cases h
  simp only at h
  rcases h3 : create_offspring (if e.config.enable_elitism then update_best f e1 else e1)
    with _ | e3 <;> rw [h3] at h
  · cases h
  simp only at h
  rcases h5 : (if e.config.enable_elitism then add_best (mutate_population e3)
      else some (mutate_population e3)) with _ | e5 <;> rw [h5] at h
  · cases h
  simp only at h
  cases h
  have hs1 := (selection_frame f e e1 h1).1
  have hs2 : bestLE e1.best_fitness
      (if e.config.enable_elitism then update_best f e1 else e1).best_fitness := by
    by_cases hel : e.config.enable_elitism
    · rw [if_pos hel]
      exact (update_best_spec f e1).1
    · rw [if_neg hel]
      exact bestLE_refl _
  have hs3 := (create_offspring_frame _ e3 h3).1
  have hs4 := (mutate_population_frame e3).1
  have hs5 : e5.best_fitness = (mutate_population e3).best_fitness := by
    by_cases hel : e.config.enable_elitism
    · rw [if_pos hel] at h5
      exact (add_best_frame _ e5 h5).1
    · rw [if_neg hel] at h5
      cases h5
      rfl
  have hs6 := update_best_spec f e5
  constructor
  · refine bestLE_trans ?_ hs6.1
    rw [hs5, hs4, hs3]
    exact bestLE_trans (by rw [hs1]; exact bestLE_refl _) hs2
  · exact hs6.2.1

/-- Evaluating an already-evaluated individual again yields the same
value. -/
theorem evaluate_value_stable (cfg : Config) (f : FitnessFunction) (ind : Individu) :
    (evaluate cfg f (evaluate cfg f ind).2.1).1 = (evaluate cfg f ind).1 := by
  obtain ⟨hev, hfit, _, _, _, _⟩ := evaluate_spec cfg f ind
  obtain ⟨_, _, _, _, hcache2, _⟩ := evaluate_spec cfg f (evaluate cfg f ind).2.1
  rw [hcache2 hev]
  simpa using hfit

/-- On an all-evaluated population a cached evaluation writes nothing
back: the stored list is unchanged. -/
theorem evalAt_unchanged (cfg : Config) (f : FitnessFunction) (pop : List Individu)
    (idx : Nat) (h : ∀ ind ∈ pop, ind.evaluated = true) :
    (evalAt cfg f pop idx).2.1 = pop := by
  unfold evalAt
  simp only
  by_cases hlt : idx < pop.length
  · have hget : pop.getD idx default = pop[idx] := by
      simp [List.getD_eq_getElem?_getD, List.getElem?_eq_getElem hlt]
    have hev : (pop.getD idx default).evaluated = true := by
      rw [hget]
      exact h _ (List.getElem_mem hlt)
    obtain ⟨_, _, _, _, hcache, _⟩ := evaluate_spec cfg f (pop.getD idx default)
    rw [hcache hev]
    exact set_getD_self pop idx default hlt
  · exact List.set_eq_of_length_le (by omega)

/-- The population component of one tournament comparison step. -/
theorem tournStep_pop (cfg : Config) (f : FitnessFunction) (st : TournSt) (idx : Nat) :
    (tournStep cfg f st idx).pop = (evalAt cfg f st.pop idx).2.1 := by
  unfold tournStep
  rcases he : evalAt cfg f st.pop idx with ⟨ev, pop', cc⟩
  simp only
  split <;> rfl

/-- The tournament fold leaves an all-evaluated population untouched. -/
theorem tournFold_pop_unchanged (cfg : Config) (f : FitnessFunction) (rest : List Nat) :
    ∀ st : TournSt, (∀ ind ∈ st.pop, ind.evaluated = true) →
      (rest.foldl (tournStep cfg f) st).pop = st.pop := by
  induction rest with
  | nil => intro st _; rfl
  | cons idx rest ih =>
    intro st hall
    rw [List.foldl_cons]
    have hpop : (tournStep cfg f st idx).pop = st.pop := by
      rw [tournStep_pop]
      exact evalAt_unchanged cfg f st.pop idx hall
    rw [ih _ (by rw [hpop]; exact hall), hpop]

/-- One selection round leaves an all-evaluated population untouched. -/
theorem selectionRound_unchanged (cfg : Config) (f : FitnessFunction) (pop : List Individu)
    (s : Nat) (hall : ∀ ind ∈ pop, ind.evaluated = true) :
    ∀ w pop' s' cc, selectionRound cfg f pop s = some (w, pop', s', cc) → pop' = pop := by
  intro w pop' s' cc h
  unfold selectionRound at h
  rcases hg : genList (uniformNat 0 (cfg.population_size - 1)) cfg.tournament_size s
    with ⟨draws, s1⟩
  rw [hg] at h
  simp only at h
  cases draws with
  | nil => cases h
  | cons d0 rest =>
    simp only at h
    rcases he : evalAt cfg f pop d0 with ⟨e0, pop0, c0⟩
    rw [he] at h
    simp only at h
    have hpop0 : pop0 = pop := by
      have := evalAt_unchanged cfg f pop d0 hall
      rw [he] at this
      exact this
    subst hpop0
    have hfold := tournFold_pop_unchanged cfg f rest ⟨d0, e0, pop0, c0⟩ hall
    cases h
    simpa using hfold

/-- The selection loop leaves an all-evaluated population untouched. -/
theorem selectionLoop_unchanged (cfg : Config) (f : FitnessFunction) :
    ∀ (n i : Nat) (pop sel : List Individu) (s calls : Nat),
      (∀ ind ∈ pop, ind.evaluated = true) →
      ∀ pop' sel' s' calls',
        selectionLoop cfg f n i pop sel s calls = some (pop', sel', s', calls') →
        pop' = pop := by
  intro n
  induction n with
  | zero =>
    intro i pop sel s calls _ pop' sel' s' calls' h
    cases h
    rfl
  | succ n ih =>
    intro i pop sel s calls hall pop' sel' s' calls' h
    unfold selectionLoop at h
    rcases hr : selectionRound cfg f pop s with _ | ⟨w, popr, sr, cc⟩ <;> rw [hr] at h
    · cases h
    · simp only at h
      have hpr : popr = pop := selectionRound_unchanged cfg f pop s hall w popr sr cc hr
      subst hpr
      exact ih (i + 1) popr (sel.set i w) sr (calls + cc) hall pop' sel' s' calls' h

/-- `selection` on an all-evaluated population stores nothing back. -/
theorem selection_unchanged (f : FitnessFunction) (e e' : Engine) (hall : allEvaluated e)
    (h : selection f e = some e') : e'.population = e.population := by
  unfold selection at h
  rcases hm : selectionLoop e.config f e.config.get_half_population_size 0
      e.population e.selected e.rng 0 with _ | ⟨pop', sel', s', cc⟩ <;> rw [hm] at h
  · cases h
  · cases h
    exact selectionLoop_unchanged e.config f _ 0 e.population e.selected e.rng 0 hall
      pop' sel' s' cc hm

/-- A freshly constructed engine has an all-evaluated population. -/
theorem mkEngine_allEval (cfg : Config) (f : FitnessFunction) (seed entropy : Nat)
    (e : Engine) (h : mkEngine cfg f seed entropy = .ok e) : allEvaluated e := by
  unfold mkEngine at h
  rcases hv : cfg.validate with _ | u <;> rw [hv] at h
  · cases h
  · simp only at h
    cases h
    intro ind hmem
    exact ((update_best_spec f _).2.1 ind hmem).1

/-- After any successful step the population is all evaluated (the
final unconditional `update_best` caches every member). -/
theorem step_allEval (f : FitnessFunction) (e e' : Engine) (h : step f e = some e') :
    allEvaluated e' := by
  unfold step at h
  rcases h1 : selection f e with _ | e1 <;> rw [h1] at h
  · cases h
  simp only at h
  rcases h3 : create_offspring (if e.config.enable_elitism then update_best f e1 else e1)
    with _ | e3 <;> rw [h3] at h
  · cases h
  simp only at h
  rcases h5 : (if e.config.enable_elitism then add_best (mutate_population e3)
      else some (mutate_population e3)) with _ | e5 <;> rw [h5] at h
  · cases h
  simp only at h
  cases h
  intro ind hmem
  exact ((update_best_spec f e5).2.1 ind hmem).1

/-- C9: in every state a selection call actually sees -- the constructor
and every generation step leave the population all evaluated -- the call
performs no in-place mutation of the stored population: no gene,
mutation-probability gene, cached fitness or evaluated flag of any
stored individual changes (the lazy evaluations inside selection all hit
the cache). -/
theorem C9_selection_reads_population (cfg : Config) (f : FitnessFunction)
    (seed entropy : Nat) (e0 eS e : Engine) :
    (mkEngine cfg f seed entropy = .ok e0 → allEvaluated e0) ∧
    (∀ e', step f eS = some e' → allEvaluated e') ∧
    (allEvaluated e → ∀ e', selection f e = some e' → e'.population = e.population) := by
  refine ⟨mkEngine_allEval cfg f seed entropy e0, ?_, ?_⟩
  · intro e' h
    exact step_allEval f eS e' h
  · intro hall e' h
    exact selection_unchanged f e e' hall h

theorem genList_length {α : Type} (gen : Nat → α × Nat) :
    ∀ (n s : Nat), (genList gen n s).1.length = n := by
  intro n
  induction n with
  | zero => intro s; rfl
  | succ n ih =>
    intro s
    simp only [genList]
    rcases hx : gen s with ⟨x, s'⟩
    simp only
    rcases hxs : genList gen n s' with ⟨xs, s''⟩
    have := ih s'
    rw [hxs] at this
    simpa using this

/-- The modelled `uniform_int_distribution(0, m - 1)` lands inside the
population for a non-empty population. -/
theorem uniformNat_lt (m s : Nat) (hm : 0 < m) : (uniformNat 0 (m - 1) s).1 < m := by
  have h1 : m - 1 - 0 + 1 = m := by omega
  simp only [uniformNat, rngNext, h1]
  have := Nat.mod_lt (rngMix (rngStep s)) hm
  omega

theorem genList_uniform_bounds (m : Nat) (hm : 0 < m) :
    ∀ (n s : Nat), ∀ d ∈ (genList (uniformNat 0 (m - 1)) n s).1, d < m := by
  intro n
  induction n with
  | zero => intro s d hd; cases hd
  | succ n ih =>
    intro s d hd
    simp only [genList] at hd
    rcases hx : uniformNat 0 (m - 1) s with ⟨x, s'⟩
    rw [hx] at hd
    simp only at hd
    rcases hxs : genList (uniformNat 0 (m - 1)) n s' with ⟨xs, s''⟩
    rw [hxs] at hd
    simp only at hd
    rcases List.mem_cons.mp hd with hd | hd
    · subst hd
      have := uniformNat_lt m s hm
      rw [hx] at this
      exact this
    · have := ih s' d
      rw [hxs] at this
      exact this hd

/-- A cached evaluation writes only the fitness cache: every slot keeps
its genes and mutation-probability genes, and the evaluation value of
every slot is unchanged. -/
theorem evalAt_preserve (cfg : Config) (f : FitnessFunction) (pop : List Individu)
    (idx : Nat) :
    (evalAt cfg f pop idx).2.1.length = pop.length ∧
    (∀ j, ((evalAt cfg f pop idx).2.1.getD j default).genes = (pop.getD j default).genes ∧
      ((evalAt cfg f pop idx).2.1.getD j default).mutation_probas
        = (pop.getD j default).mutation_probas) ∧
    (∀ j, evalValue cfg f (evalAt cfg f pop idx).2.1 j = evalValue cfg f pop j) := by
  obtain ⟨_, _, hg, hp, _, _⟩ := evaluate_spec cfg f (pop.getD idx default)
  refine ⟨by simp [evalAt], ?_, ?_⟩
  · intro j
    show ((pop.set idx _).getD j default).genes = _ ∧
      ((pop.set idx _).getD j default).mutation_probas = _
    by_cases hj : j = idx
    · subst hj
      by_cases hlt : j < pop.length
      · rw [getD_set_self _ _ _ _ hlt]
        exact ⟨hg, hp⟩
      · rw [List.set_eq_of_length_le (by omega)]
        exact ⟨rfl, rfl⟩
    · rw [getD_set_ne _ (fun hc => hj hc.symm)]
      exact ⟨rfl, rfl⟩
  · intro j
    show evalValue cfg f (pop.set idx _) j = _
    by_cases hj : j = idx
    · subst hj
      by_cases hlt : j < pop.length
      · unfold evalValue
        rw [getD_set_self _ _ _ _ hlt]
        exact evaluate_value_stable cfg f (pop.getD j default)
      · rw [List.set_eq_of_length_le (by omega)]
    · unfold evalValue
      rw [getD_set_ne _ (fun hc => hj hc.symm)]

/-- The population component of evaluating a list of draws. -/
theorem evalAllAt_pop (cfg : Config) (f : FitnessFunction) :
    ∀ (draws : List Nat) (p : List Individu × Nat),
      (draws.foldl (fun (acc : List Individu × Nat) d =>
          let x := evalAt cfg f acc.1 d
          (x.2.1, acc.2 + x.2.2)) p).1
        = draws.foldl (fun q d => (evalAt cfg f q d).2.1) p.1 := by
  intro draws
  induction draws with
  | nil => intro p; rfl
  | cons d rest ih =>
    intro p
    rw [List.foldl_cons, List.foldl_cons]
    exact ih _

/-- Evaluating a list of draws preserves every slot's genotype and
evaluation value. -/
theorem evalFold_preserve (cfg : Config) (f : FitnessFunction) :
    ∀ (draws : List Nat) (pop : List Individu),
      (∀ j, evalValue cfg f (draws.foldl (fun p d => (evalAt cfg f p d).2.1) pop) j
        = evalValue cfg f pop j) ∧
      (∀ j, ((draws.foldl (fun p d => (evalAt cfg f p d).2.1) pop).getD j default).genes
          = (pop.getD j default).genes ∧
        ((draws.foldl (fun p d => (evalAt cfg f p d).2.1) pop).getD j default).mutation_probas
          = (pop.getD j default).mutation_probas) := by
  intro draws
  induction draws with
  | nil => intro pop; exact ⟨fun j => rfl, fun j => ⟨rfl, rfl⟩⟩
  | cons d rest ih =>
    intro pop
    simp only [List.foldl_cons]
    obtain ⟨hv, hg, _⟩ := evalAt_preserve cfg f pop d
    obtain ⟨ihv, ihg⟩ := ih (evalAt cfg f pop d).2.1
    constructor
    · intro j
      rw [ihv j]
      exact (evalAt_preserve cfg f pop d).2.2 j
    · intro j
      obtain ⟨ihg1, ihg2⟩ := ihg j
      obtain ⟨hg1, hg2⟩ := (evalAt_preserve cfg f pop d).2.1 j
      exact ⟨by rw [ihg1, hg1], by rw [ihg2, hg2]⟩

/-- The translated tournament fold computes the same winner as the pure
first-strict-improvement fold over the stable fitness values, while its
population component only accumulates evaluation caches. -/
theorem tournFold_spec (cfg : Config) (f : FitnessFunction) (fit : Nat → ℚ) :
    ∀ (rest : List Nat) (st : TournSt),
      (∀ j, evalValue cfg f st.pop j = fit j) →
      st.best_eval = fit st.best_idx →
      (rest.foldl (tournStep cfg f) st).best_idx
          = rest.foldl (fun bi idx => if fit bi < fit idx then idx else bi) st.best_idx ∧
      (rest.foldl (tournStep cfg f) st).pop
          = rest.foldl (fun p idx => (evalAt cfg f p idx).2.1) st.pop := by
  intro rest
  induction rest with
  | nil => intro st _ _; exact ⟨rfl, rfl⟩
  | cons idx rest ih =>
    intro st hv hbe
    simp only [List.foldl_cons]
    have hev1 : (evalAt cfg f st.pop idx).1 = fit idx := by
      have h0 : (evalAt cfg f st.pop idx).1 = evalValue cfg f st.pop idx := rfl
      rw [h0, hv idx]
    have hst : tournStep cfg f st idx
        = if fit st.best_idx < fit idx
          then (⟨idx, fit idx, (evalAt cfg f st.pop idx).2.1,
                 st.calls + (evalAt cfg f st.pop idx).2.2⟩ : TournSt)
          else ⟨st.best_idx, st.best_eval, (evalAt cfg f st.pop idx).2.1,
                 st.calls + (evalAt cfg f st.pop idx).2.2⟩ := by
      unfold tournStep
      rcases he : evalAt cfg f st.pop idx with ⟨ev, popE, cc⟩
      rw [he] at hev1
      simp only at hev1 ⊢
      rw [hev1, hbe]
    rw [hst]
    have hvnext : ∀ j, evalValue cfg f (evalAt cfg f st.pop idx).2.1 j = fit j := by
      intro j
      rw [(evalAt_preserve cfg f st.pop idx).2.2 j]
      exact hv j
    by_cases hc : fit st.best_idx < fit idx
    · rw [if_pos hc, if_pos hc]
      exact ih _ hvnext rfl
    · rw [if_neg hc, if_neg hc]
      exact ih _ hvnext hbe

theorem find?_congr_mem {α : Type} (p q : α → Bool) :
    ∀ (l : List α), (∀ x ∈ l, p x = q x) → l.find? p = l.find? q := by
  intro l
  induction l with
  | nil => intro _; rfl
  | cons a l ih =>
    intro h
    have ha := h a (by simp)
    rw [List.find?_cons, List.find?_cons, ha]
    cases hqa : q a
    · simp only [hqa]
      exact ih (fun x hx => h x (List.mem_cons_of_mem a hx))
    · simp only [hqa]

/-- The pure first-strict-improvement fold computes exactly the
specification's winner: the first-drawn candidate whose fitness is
greatest among all drawn candidates. -/
theorem tournamentWinnerSpec_eq_fold (fit : Nat → ℚ) :
    ∀ (rest : List Nat) (d0 : Nat),
      tournamentWinnerSpec fit (d0 :: rest)
        = some (rest.foldl (fun bi idx => if fit bi < fit idx then idx else bi) d0) := by
  intro rest
  induction rest with
  | nil =>
    intro d0
    simp [tournamentWinnerSpec]
  | cons r rs ih =>
    intro d0
    by_cases hc : fit d0 < fit r
    · rw [List.foldl_cons, if_pos hc, ← ih r]
      unfold tournamentWinnerSpec
      have hrle : ¬(fit r ≤ fit d0) := not_le.mpr hc
      have hd0fail : ¬(((d0 :: r :: rs).all
          (fun d2 => decide (fit d2 ≤ fit d0))) = true) := by
        simp only [List.all_cons, Bool.and_eq_true, decide_eq_true_eq]
        intro hcontr
        exact hrle hcontr.2.1
      rw [@List.find?_cons_of_neg ℕ
        (fun d => (d0 :: r :: rs).all (fun d2 => decide (fit d2 ≤ fit d))) d0
        (r :: rs) hd0fail]
      apply find?_congr_mem
      intro x hx
      simp only [List.all_cons]
      by_cases hrx : fit r ≤ fit x
      · have hd0x : fit d0 ≤ fit x := le_of_lt (lt_of_lt_of_le hc hrx)
        simp [hrx, hd0x]
      · simp [hrx]
    · rw [List.foldl_cons, if_neg hc, ← ih d0]
      unfold tournamentWinnerSpec
      have hrd : fit r ≤ fit d0 := le_of_not_lt hc
      by_cases hd0 : ((d0 :: rs).all (fun d2 => decide (fit d2 ≤ fit d0))) = true
      · have hfull : ((d0 :: r :: rs).all (fun d2 => decide (fit d2 ≤ fit d0))) = true := by
          simp only [List.all_cons, Bool.and_eq_true, decide_eq_true_eq,
            List.all_eq_true] at hd0 ⊢
          exact ⟨hd0.1, hrd, hd0.2⟩
        rw [@List.find?_cons_of_pos ℕ
            (fun d => (d0 :: r :: rs).all (fun d2 => decide (fit d2 ≤ fit d))) d0
            (r :: rs) hfull,
          @List.find?_cons_of_pos ℕ
            (fun d => (d0 :: rs).all (fun d2 => decide (fit d2 ≤ fit d))) d0 rs hd0]
      · have hfufail : ¬(((d0 :: r :: rs).all
            (fun d2 => decide (fit d2 ≤ fit d0))) = true) := by
          simp only [List.all_cons, Bool.and_eq_true, decide_eq_true_eq,
            List.all_eq_true] at hd0 ⊢
          intro hcontr
          exact hd0 ⟨hcontr.1, hcontr.2.2⟩
        have hrfail : ¬(((d0 :: r :: rs).all
            (fun d2 => decide (fit d2 ≤ fit r))) = true) := by
          simp only [List.all_cons, Bool.and_eq_true, decide_eq_true_eq,
            List.all_eq_true] at hd0 ⊢
          intro hcontr
          exact hd0 ⟨le_trans hcontr.1 hrd,
            fun x hx => le_trans (hcontr.2.2 x hx) hrd⟩
        rw [@List.find?_cons_of_neg ℕ
            (fun d => (d0 :: r :: rs).all (fun d2 => decide (fit d2 ≤ fit d))) d0
            (r :: rs) hfufail,
          @List.find?_cons_of_neg ℕ
            (fun d => (d0 :: r :: rs).all (fun d2 => decide (fit d2 ≤ fit d))) r
            rs hrfail,
          @List.find?_cons_of_neg ℕ
            (fun d => (d0 :: rs).all (fun d2 => decide (fit d2 ≤ fit d))) d0 rs hd0]
        apply find?_congr_mem
        intro x hx
        simp only [List.all_cons]
        by_cases h1 : fit d0 ≤ fit x
        · have h2 : fit r ≤ fit x := le_trans hrd h1
          simp [h1, h2]
        · simp [h1]

/-- Full characterisation of one selection round: `tournament_size`
indices are drawn over the whole population, every drawn candidate is
evaluated through the cache (changing no genotype), and the stored
winner is the population's copy at the specification winner index: the
first-drawn index of greatest fitness. -/
theorem selectionRound_spec (cfg : Config) (f : FitnessFunction) (pop : List Individu)
    (s : Nat) (hpos : 0 < cfg.population_size) (w : Individu) (pop' : List Individu)
    (s' cc : Nat) (h : selectionRound cfg f pop s = some (w, pop', s', cc)) :
    (genList (uniformNat 0 (cfg.population_size - 1)) cfg.tournament_size s).1.length
        = cfg.tournament_size ∧
    (∀ d ∈ (genList (uniformNat 0 (cfg.population_size - 1)) cfg.tournament_size s).1,
      d < cfg.population_size) ∧
    ∃ widx,
      tournamentWinnerSpec (evalValue cfg f pop)
          (genList (uniformNat 0 (cfg.population_size - 1)) cfg.tournament_size s).1
        = some widx ∧
      pop' = (evalAllAt cfg f pop
          (genList (uniformNat 0 (cfg.population_size - 1)) cfg.tournament_size s).1).1 ∧
      w = pop'.getD widx default ∧
      (∀ j, ((pop'.getD j default).genes = (pop.getD j default).genes ∧
        (pop'.getD j default).mutation_probas = (pop.getD j default).mutation_probas)) := by
  refine ⟨genList_length _ _ _, genList_uniform_bounds _ hpos _ _, ?_⟩
  unfold selectionRound at h
  rcases hg : genList (uniformNat 0 (cfg.population_size - 1)) cfg.tournament_size s
    with ⟨draws, s1⟩
  rw [hg] at h
  simp only at h
  rw [show ((draws, s1) : List ℕ × ℕ).1 = draws from rfl]
  cases draws with
  | nil => cases h
  | cons d0 rest =>
    simp only at h
    rcases he : evalAt cfg f pop d0 with ⟨e0, pop0, c0⟩
    rw [he] at h
    simp only [Option.some.injEq, Prod.mk.injEq] at h
    obtain ⟨hw, hpop', hs', hcc⟩ := h
    subst hw
    subst hpop'
    have hvs : ∀ j, evalValue cfg f pop0 j = evalValue cfg f pop j := by
      intro j
      have hq := (evalAt_preserve cfg f pop d0).2.2 j
      rw [he] at hq
      exact hq
    have he0 : e0 = evalValue cfg f pop d0 := by
      have hq : (evalAt cfg f pop d0).1 = evalValue cfg f pop d0 := rfl
      rw [he] at hq
      exact hq
    obtain ⟨hidx, hpop⟩ := tournFold_spec cfg f (evalValue cfg f pop) rest
      ⟨d0, e0, pop0, c0⟩ (fun j => hvs j) he0
    refine ⟨(rest.foldl (tournStep cfg f) ⟨d0, e0, pop0, c0⟩).best_idx, ?_, ?_, rfl, ?_⟩
    · rw [tournamentWinnerSpec_eq_fold, hidx]
    · rw [hpop, evalAllAt, evalAllAt_pop, List.foldl_cons, he]
    · intro j
      rw [hpop]
      have hfold := (evalFold_preserve cfg f rest pop0).2 j
      have hat := (evalAt_preserve cfg f pop d0).2.1 j
      rw [he] at hat
      exact ⟨by rw [hfold.1]; exact hat.1, by rw [hfold.2]; exact hat.2⟩

theorem setFrom_cons_shift {α : Type} :
    ∀ (ws l : List α) (i : Nat) (x : α), setFrom (x :: l) (i + 1) ws = x :: setFrom l i ws := by
  intro ws
  induction ws with
  | nil => intro l i x; rfl
  | cons w ws ih =>
    intro l i x
    simp only [setFrom, List.set_cons_succ]
    exact ih _ _ _

theorem setFrom_id {α : Type} :
    ∀ (ws l : List α), l.length = ws.length → setFrom l 0 ws = ws := by
  intro ws
  induction ws with
  | nil =>
    intro l h
    rw [List.length_nil] at h
    rw [List.length_eq_zero.mp h]
    rfl
  | cons w ws ih =>
    intro l h
    cases l with
    | nil => simp at h
    | cons a l' =>
      show setFrom ((a :: l').set 0 w) 1 ws = w :: ws
      rw [List.set_cons_zero]
      rw [show (1 : Nat) = 0 + 1 from rfl, setFrom_cons_shift]
      rw [ih l' (by simpa using h)]

theorem selectionWinners_length (cfg : Config) (f : FitnessFunction) :
    ∀ (n : Nat) (pop : List Individu) (s : Nat) (ws : List Individu)
      (pop' : List Individu) (s' cc : Nat),
      selectionWinners cfg f n pop s = some (ws, pop', s', cc) → ws.length = n := by
  intro n
  induction n with
  | zero =>
    intro pop s ws pop' s' cc h
    cases h
    rfl
  | succ n ih =>
    intro pop s ws pop' s' cc h
    unfold selectionWinners at h
    rcases hr : selectionRound cfg f pop s with _ | ⟨w, popr, sr, ccr⟩ <;> rw [hr] at h
    · cases h
    · simp only at h
      rcases hw : selectionWinners cfg f n popr sr with _ | ⟨ws2, pop2, s2, cc2⟩ <;>
        rw [hw] at h
      · cases h
      · cases h
        have := ih popr sr ws2 _ _ _ hw
        simp [this]

/-- The selection loop is the winners recursion writing the round
winners into consecutive selected-buffer slots. -/
theorem selectionLoop_eq_winners (cfg : Config) (f : FitnessFunction) :
    ∀ (n i : Nat) (pop sel : List Individu) (s calls : Nat),
      selectionLoop cfg f n i pop sel s calls
        = match selectionWinners cfg f n pop s with
          | none => none
          | some (ws, pop', s', cc) => some (pop', setFrom sel i ws, s', calls + cc) := by
  intro n
  induction n with
  | zero =>
    intro i pop sel s calls
    simp [selectionLoop, selectionWinners, setFrom]
  | succ n ih =>
    intro i pop sel s calls
    unfold selectionLoop selectionWinners
    rcases hr : selectionRound cfg f pop s with _ | ⟨w, popr, sr, ccr⟩
    · rfl
    · simp only
      rw [ih]
      rcases hw : selectionWinners cfg f n popr sr with _ | ⟨ws2, pop2, s2, cc2⟩
      · rfl
      · simp only [setFrom]
        rw [Nat.add_assoc]

/-- C7: selection performs exactly `population_size / 2` tournament
rounds whose winners fill the selected buffer in order; each round draws
`tournament_size` indices over the whole population, evaluates every
drawn candidate through the cache, and stores a copy of the first-drawn
candidate of strictly greatest fitness. -/
theorem C7_selection_tournament (cfg : Config) (f : FitnessFunction) (pop : List Individu)
    (s : Nat) (e e' : Engine) (hpos : 0 < cfg.population_size)
    (hsel : e.selected.length = e.config.get_half_population_size) :
    (∀ w pop' s' cc, selectionRound cfg f pop s = some (w, pop', s', cc) →
      (genList (uniformNat 0 (cfg.population_size - 1)) cfg.tournament_size s).1.length
          = cfg.tournament_size ∧
      (∀ d ∈ (genList (uniformNat 0 (cfg.population_size - 1)) cfg.tournament_size s).1,
        d < cfg.population_size) ∧
      ∃ widx,
        tournamentWinnerSpec (evalValue cfg f pop)
            (genList (uniformNat 0 (cfg.population_size - 1)) cfg.tournament_size s).1
          = some widx ∧
        pop' = (evalAllAt cfg f pop
            (genList (uniformNat 0 (cfg.population_size - 1)) cfg.tournament_size s).1).1 ∧
        w = pop'.getD widx default ∧
        (∀ j, ((pop'.getD j default).genes = (pop.getD j default).genes ∧
          (pop'.getD j default).mutation_probas = (pop.getD j default).mutation_probas))) ∧
    (selection f e = some e' →
      ∃ ws pop'' s'' cc,
        selectionWinners e.config f e.config.get_half_population_size e.population e.rng
          = some (ws, pop'', s'', cc) ∧
        ws.length = e.config.get_half_population_size ∧
        e'.selected = ws ∧ e'.population = pop'') := by
  constructor
  · intro w pop' s' cc h
    exact selectionRound_spec cfg f pop s hpos w pop' s' cc h
  · intro h
    unfold selection at h
    rw [selectionLoop_eq_winners] at h
    rcases hw : selectionWinners e.config f e.config.get_half_population_size
        e.population e.rng with _ | ⟨ws, pop2, s2, cc2⟩ <;> rw [hw] at h
    · cases h
    · simp only at h
      cases h
      have hlen := selectionWinners_length e.config f _ _ _ _ _ _ _ hw
      refine ⟨ws, pop2, s2, cc2, rfl, hlen, ?_, rfl⟩
      show setFrom e.selected 0 ws = ws
      exact setFrom_id ws e.selected (by rw [hsel, hlen])

/-- The even pair-start indices of a full even-length pass are the step-2
range. -/
theorem pairStarts_eq : ∀ (k : Nat), pairStarts (2 * k) = List.range' 0 k 2 := by
  intro k
  induction k with
  | zero => rfl
  | succ k ih =>
    have h2 : 2 * (k + 1) = (2 * k + 1) + 1 := by omega
    rw [pairStarts, h2, List.range_succ, List.range_succ, List.filter_append,
      List.filter_append]
    have ha : List.filter (fun i => decide (i % 2 = 0)) [2 * k] = [2 * k] := by
      have hm : (2 * k) % 2 = 0 := by omega
      simp [List.filter_cons, hm]
    have hb : List.filter (fun i => decide (i % 2 = 0)) [2 * k + 1] = [] := by
      have hm : ¬((2 * k + 1) % 2 = 0) := by omega
      simp [List.filter_cons, hm]
    rw [ha, hb, List.append_nil]
    rw [show List.filter (fun i => decide (i % 2 = 0)) (List.range (2 * k))
        = pairStarts (2 * k) from rfl, ih, List.range'_concat]
    simp

theorem listSwap_length (l : List Individu) (i j : Nat) :
    (listSwap l i j).length = l.length := by
  simp [listSwap]

theorem shuffleList_length (l : List Individu) (s : Nat) :
    (shuffleList l s).1.length = l.length := by
  unfold shuffleList
  generalize (List.range' 1 (l.length - 1)).reverse = is
  induction is generalizing l s with
  | nil => rfl
  | cons i is ih =>
    rw [List.foldl_cons]
    rcases hu : uniformNat 0 i s with ⟨j, s'⟩
    simp only
    rw [ih (listSwap l i j) s']
    exact listSwap_length l i j

theorem evalFold_length (cfg : Config) (f : FitnessFunction) :
    ∀ (draws : List Nat) (pop : List Individu),
      (draws.foldl (fun p d => (evalAt cfg f p d).2.1) pop).length = pop.length := by
  intro draws
  induction draws with
  | nil => intro pop; rfl
  | cons d rest ih =>
    intro pop
    rw [List.foldl_cons, ih]
    exact (evalAt_preserve cfg f pop d).1

theorem tournFold_pop (cfg : Config) (f : FitnessFunction) :
    ∀ (rest : List Nat) (st : TournSt),
      (rest.foldl (tournStep cfg f) st).pop
        = rest.foldl (fun p idx => (evalAt cfg f p idx).2.1) st.pop := by
  intro rest
  induction rest with
  | nil => intro st; rfl
  | cons idx rest ih =>
    intro st
    rw [List.foldl_cons, List.foldl_cons, ih, tournStep_pop]

/-- With a positive tournament size a selection round always succeeds
and preserves the population length. -/
theorem selectionRound_some (cfg : Config) (f : FitnessFunction) (pop : List Individu)
    (s : Nat) (ht : 0 < cfg.tournament_size) :
    ∃ w pop' s' cc, selectionRound cfg f pop s = some (w, pop', s', cc) ∧
      pop'.length = pop.length := by
  unfold selectionRound
  rcases hg : genList (uniformNat 0 (cfg.population_size - 1)) cfg.tournament_size s
    with ⟨draws, s1⟩
  have hlen : draws.length = cfg.tournament_size := by
    have hq := genList_length (uniformNat 0 (cfg.population_size - 1))
      cfg.tournament_size s
    rw [hg] at hq
    exact hq
  cases draws with
  | nil => simp at hlen; omega
  | cons d0 rest =>
    simp only
    refine ⟨_, _, _, _, rfl, ?_⟩
    rw [tournFold_pop]
    show (rest.foldl _ (evalAt cfg f pop d0).2.1).length = pop.length
    rw [evalFold_length]
    exact (evalAt_preserve cfg f pop d0).1

/-- With a positive tournament size the whole selection loop succeeds,
preserving the population length and the selected-buffer length. -/
theorem selectionLoop_some (cfg : Config) (f : FitnessFunction)
    (ht : 0 < cfg.tournament_size) :
    ∀ (n i : Nat) (pop sel : List Individu) (s calls : Nat),
      ∃ pop' sel' s' calls',
        selectionLoop cfg f n i pop sel s calls = some (pop', sel', s', calls') ∧
        pop'.length = pop.length ∧ sel'.length = sel.length := by
  intro n
  induction n with
  | zero =>
    intro i pop sel s calls
    exact ⟨pop, sel, s, calls, rfl, rfl, rfl⟩
  | succ n ih =>
    intro i pop sel s calls
    obtain ⟨w, popr, sr, ccr, hr, hrl⟩ := selectionRound_some cfg f pop s ht
    obtain ⟨pop', sel', s', calls', hl, hl1, hl2⟩ :=
      ih (i + 1) popr (sel.set i w) sr (calls + ccr)
    refine ⟨pop', sel', s', calls', ?_, by rw [hl1, hrl], by rw [hl2]; simp⟩
    unfold selectionLoop
    rw [hr]
    simp only
    exact hl

/-- With a positive tournament size `selection` succeeds and preserves
both buffer lengths. -/
theorem selection_some (f : FitnessFunction) (e : Engine)
    (ht : 0 < e.config.tournament_size) :
    ∃ e', selection f e = some e' ∧ e'.population.length = e.population.length ∧
      e'.selected.length = e.selected.length ∧ e'.config = e.config ∧
      e'.best_fitness = e.best_fitness ∧ e'.best_individual = e.best_individual := by
  obtain ⟨pop', sel', s', calls', hl, hl1, hl2⟩ := selectionLoop_some e.config f ht
    e.config.get_half_population_size 0 e.population e.selected e.rng 0
  refine ⟨{ e with
    population := pop'
    selected := sel'
    rng := s'
    calls := e.calls + calls' }, ?_, hl1, hl2, rfl, rfl, rfl⟩
  unfold selection
  rw [hl]

/-- A successful offspring pass over the step-2 range exists exactly
when the pairwise reads of the selected buffer and the pairwise writes
of the population stay within the buffers, and it overwrites the write
window `[base + a, base + a + 2m)` exactly once, slot by slot, with the
children produced in order; all other slots are untouched. -/
theorem offspringGo_spec (cfg : Config) (sel : List Individu) (base : Nat) :
    ∀ (m a : Nat) (pop : List Individu) (s : Nat),
      a + 2 * m ≤ sel.length →
      base + a + 2 * m ≤ pop.length →
      ∃ pop' s' kids,
        offspringGo cfg sel base (List.range' a m 2) pop s = some (pop', s', kids) ∧
        kids.length = 2 * m ∧
        pop'.length = pop.length ∧
        (∀ j, (j < base + a ∨ base + a + 2 * m ≤ j) →
          pop'.getD j default = pop.getD j default) ∧
        (∀ t, t < 2 * m → pop'.getD (base + a + t) default = kids.getD t default) := by
  intro m
  induction m with
  | zero =>
    intro a pop s hs hp
    exact ⟨pop, s, [], rfl, rfl, rfl, fun j _ => rfl, fun t ht => by omega⟩
  | succ m ih =>
    intro a pop s hs hp
    rw [List.range'_succ]
    have hcond : a + 1 < sel.length ∧ base + a + 1 < pop.length := by omega
    have hlen1 : ((pop.set (base + a)
        (crossover cfg (sel.getD a default) (sel.getD (a + 1) default) s).1).set
          (base + a + 1)
          (crossover cfg (sel.getD a default) (sel.getD (a + 1) default) s).2.1).length
        = pop.length := by simp
    obtain ⟨pop', s', kids, hgo, hkl, hpl, hout, hin⟩ := ih (a + 2)
      ((pop.set (base + a)
        (crossover cfg (sel.getD a default) (sel.getD (a + 1) default) s).1).set
          (base + a + 1)
          (crossover cfg (sel.getD a default) (sel.getD (a + 1) default) s).2.1)
      (crossover cfg (sel.getD a default) (sel.getD (a + 1) default) s).2.2
      (by omega) (by rw [hlen1]; omega)
    refine ⟨pop', s',
      (crossover cfg (sel.getD a default) (sel.getD (a + 1) default) s).1 ::
        (crossover cfg (sel.getD a default) (sel.getD (a + 1) default) s).2.1 :: kids,
      ?_, by simp [hkl]; omega, by rw [hpl, hlen1], ?_, ?_⟩
    · unfold offspringGo
      rw [if_pos hcond]
      simp only [hgo]
    · intro j hj
      rw [hout j (by omega)]
      rw [getD_set_ne _ (by omega), getD_set_ne _ (by omega)]
    · intro t ht
      match t with
      | 0 =>
        rw [Nat.add_zero, hout (base + a) (by omega), getD_set_ne _ (by omega),
          getD_set_self _ _ _ _ (by omega)]
        rfl
      | 1 =>
        rw [hout (base + a + 1) (by omega), getD_set_self _ _ _ _ (by simp; omega)]
        rfl
      | Nat.succ (Nat.succ t') =>
        have hq := hin t' (by omega)
        rw [show base + a + (t' + 1 + 1) = base + (a + 2) + t' by omega, hq]
        rfl

/-- A successful offspring pass preserves the population length. -/
theorem offspringGo_length (cfg : Config) (sel : List Individu) (base : Nat) :
    ∀ (is : List Nat) (pop : List Individu) (s : Nat) (pop' : List Individu)
      (s' : Nat) (kids : List Individu),
      offspringGo cfg sel base is pop s = some (pop', s', kids) →
      pop'.length = pop.length := by
  intro is
  induction is with
  | nil =>
    intro pop s pop' s' kids h
    cases h
    rfl
  | cons i rest ih =>
    intro pop s pop' s' kids h
    unfold offspringGo at h
    by_cases hc : i + 1 < sel.length ∧ base + i + 1 < pop.length
    · rw [if_pos hc] at h
      simp only at h
      rcases hgo : offspringGo cfg sel base rest
          ((pop.set (base + i) (crossover cfg (sel.getD i default)
            (sel.getD (i + 1) default) s).1).set (base + i + 1)
            (crossover cfg (sel.getD i default) (sel.getD (i + 1) default) s).2.1)
          (crossover cfg (sel.getD i default) (sel.getD (i + 1) default) s).2.2
        with _ | ⟨pop2, s2, kids2⟩ <;> rw [hgo] at h
      · cases h
      · cases h
        have := ih _ _ _ _ _ hgo
        simpa using this
    · rw [if_neg hc] at h
      cases h

/-- Facts recorded by a successful validation. -/
theorem validate_ok_facts (c : Config) (h : c.validate = .ok ()) :
    0 < c.population_size ∧ c.population_size % 2 = 0 ∧ 0 < c.dimension ∧
    0 < c.number_of_vectors ∧ 0 < c.integer_bits ∧ c.integer_bits ≤ c.integer_width ∧
    0 < c.tournament_size ∧ c.min_real < c.max_real := by
  unfold Config.validate at h
  have f1 : ¬(c.population_size = 0) := by
    intro hc; rw [if_pos hc] at h; cases h
  rw [if_neg f1] at h
  have f2 : ¬(c.population_size % 2 ≠ 0) := by
    intro hc; rw [if_pos hc] at h; cases h
  rw [if_neg f2] at h
  have f3 : ¬(c.max_generations = 0) := by
    intro hc; rw [if_pos hc] at h; cases h
  rw [if_neg f3] at h
  have f4 : ¬(c.number_of_vectors = 0) := by
    intro hc; rw [if_pos hc] at h; cases h
  rw [if_neg f4] at h
  have f5 : ¬(c.dimension = 0) := by
    intro hc; rw [if_pos hc] at h; cases h
  rw [if_neg f5] at h
  have f6 : ¬(c.min_real ≥ c.max_real) := by
    intro hc; rw [if_pos hc] at h; cases h
  rw [if_neg f6] at h
  have f7 : ¬(c.integer_bits = 0) := by
    intro hc; rw [if_pos hc] at h; cases h
  rw [if_neg f7] at h
  have f8 : ¬(c.integer_bits > c.integer_width) := by
    intro hc; rw [if_pos hc] at h; cases h
  rw [if_neg f8] at h
  have f9 : ¬(c.tournament_size = 0) := by
    intro hc; rw [if_pos hc] at h; cases h
  refine ⟨by omega, by omega, by omega, by omega, by omega, by omega, by omega, ?_⟩
  exact lt_of_not_ge f6

/-- With an even half population, `create_offspring` succeeds and the
two passes overwrite every slot exactly once: the lower half with the
first pass's children in order, the upper half with the second pass's
children in order. -/
theorem create_offspring_spec (e : Engine)
    (hsel : e.selected.length = e.config.get_half_population_size)
    (hpop : e.population.length = e.config.population_size)
    (hdiv4 : e.config.population_size % 4 = 0) :
    ∃ e', create_offspring e = some e' ∧
      e'.population.length = e.config.population_size ∧
      e'.config = e.config ∧ e'.best_fitness = e.best_fitness ∧
      e'.best_individual = e.best_individual ∧
      e'.selected.length = e.selected.length ∧
      ∃ kids1 kids2 : List Individu,
        kids1.length = e.config.get_half_population_size ∧
        kids2.length = e.config.get_half_population_size ∧
        (∀ j, j < e.config.get_half_population_size →
          e'.population.getD j default = kids1.getD j default) ∧
        (∀ j, e.config.get_half_population_size ≤ j → j < e.config.population_size →
          e'.population.getD j default
            = kids2.getD (j - e.config.get_half_population_size) default) := by
  have hhalf2 : 2 * (e.config.get_half_population_size / 2)
      = e.config.get_half_population_size := by
    unfold Config.get_half_population_size
    omega
  have hhalfpop : 2 * e.config.get_half_population_size = e.config.population_size := by
    unfold Config.get_half_population_size
    omega
  rcases hs1 : shuffleList e.selected e.rng with ⟨sel1, s1⟩
  have hsel1 : sel1.length = e.config.get_half_population_size := by
    have hq := shuffleList_length e.selected e.rng
    rw [hs1] at hq
    rw [← hsel]
    exact hq
  have hps1 : pairStarts sel1.length
      = List.range' 0 (e.config.get_half_population_size / 2) 2 := by
    rw [hsel1, ← hhalf2, pairStarts_eq]
    rw [hhalf2]
  obtain ⟨pop1, sp1, kids1, hgo1, hkl1, hpl1, hout1, hin1⟩ :=
    offspringGo_spec e.config sel1 0 (e.config.get_half_population_size / 2) 0
      e.population s1 (by omega) (by omega)
  rcases hs2 : shuffleList sel1 sp1 with ⟨sel2, s3⟩
  have hsel2 : sel2.length = e.config.get_half_population_size := by
    have hq := shuffleList_length sel1 sp1
    rw [hs2] at hq
    rw [hq, hsel1]
  have hps2 : pairStarts sel2.length
      = List.range' 0 (e.config.get_half_population_size / 2) 2 := by
    rw [hsel2, ← hhalf2, pairStarts_eq]
    rw [hhalf2]
  obtain ⟨pop2, sp2, kids2, hgo2, hkl2, hpl2, hout2, hin2⟩ :=
    offspringGo_spec e.config sel2 sel2.length (e.config.get_half_population_size / 2) 0
      pop1 s3 (by omega) (by rw [hpl1]; omega)
  refine ⟨{ e with
      population := pop2
      selected := sel2
      rng := sp2
      produced := e.produced ++ (kids1 ++ kids2).map (genotypeOf e.config) },
    ?_, ?_, rfl, rfl, rfl, ?_, kids1, kids2, by omega, by omega, ?_, ?_⟩
  · unfold create_offspring
    rw [hs1]
    simp only
    rw [hps1]
    rw [hgo1]
    simp only
    rw [hs2]
    simp only
    rw [hps2]
    rw [hgo2]
  · show pop2.length = _
    rw [hpl2, hpl1, hpop]
  · show sel2.length = _
    rw [hsel2, hsel]
  · intro j hj
    show pop2.getD j default = _
    rw [hout2 j (by omega)]
    have := hin1 j (by omega)
    simpa using this
  · intro j hj1 hj2
    show pop2.getD j default = _
    have := hin2 (j - e.config.get_half_population_size) (by omega)
    rw [show sel2.length + 0 + (j - e.config.get_half_population_size) = j
      by omega] at this
    exact this

/-- With a positive population size and a full-size population, the
elitism reinjection `add_best` always succeeds: the drawn slot is within
the population. -/
theorem add_best_some (e : Engine) (hp : 0 < e.config.population_size)
    (hlen : e.config.population_size ≤ e.population.length) :
    ∃ e', add_best e = some e' ∧ e'.population.length = e.population.length ∧
      e'.config = e.config ∧ e'.selected = e.selected ∧
      e'.best_fitness = e.best_fitness ∧ e'.best_individual = e.best_individual := by
  have hq := uniformNat_lt e.config.population_size e.rng hp
  rcases hu : uniformNat 0 (e.config.population_size - 1) e.rng with ⟨idx, s'⟩
  rw [hu] at hq
  have hlt : idx < e.population.length := lt_of_lt_of_le hq hlen
  refine ⟨{ e with
      population := e.population.set idx e.best_individual
      rng := s' }, ?_, by simp, rfl, rfl, rfl, rfl⟩
  unfold add_best
  rw [hu]
  simp only
  rw [if_pos hlt]

/-- `initialize_population` installs exactly `population_size` members
and touches neither the config nor the selected buffer. -/
theorem init_population_spec (f : FitnessFunction) (e : Engine) :
    (init_population f e).population.length = e.config.population_size ∧
    (init_population f e).config = e.config ∧
    (init_population f e).selected = e.selected := by
  unfold init_population
  rcases hg : genList (randIndividu e.config) e.config.population_size e.rng with ⟨pop, s'⟩
  simp only
  have hlen : pop.length = e.config.population_size := by
    have hq := genList_length (randIndividu e.config) e.config.population_size e.rng
    rw [hg] at hq
    exact hq
  have h := update_best_spec f { e with
    population := pop
    rng := s'
    produced := e.produced ++ pop.map (genotypeOf e.config) }
  refine ⟨?_, h.2.2.2.1, h.2.2.2.2.1⟩
  rw [h.2.2.1]
  exact hlen

/-- A successfully constructed engine carries its config, a population
of exactly `population_size` members, and a selected buffer of exactly
half that size. -/
theorem mkEngine_spec (cfg : Config) (f : FitnessFunction) (seed entropy : Nat)
    (e : Engine) (h : mkEngine cfg f seed entropy = .ok e) :
    e.config = cfg ∧ e.population.length = cfg.population_size ∧
    e.selected.length = cfg.get_half_population_size := by
  unfold mkEngine at h
  rcases hv : cfg.validate with err | u <;> rw [hv] at h
  · cases h
  · simp only at h
    cases h
    obtain ⟨h1, h2, h3⟩ := init_population_spec f
      { config := cfg, rng := if seed = 0 then entropy else seed, population := [],
        selected := [], current_generation := 0, best_fitness := none,
        best_individual := default, calls := 0, produced := [] }
    exact ⟨h2, h1, by simp⟩

/-- A successful `reset` carries the new config, a population of exactly
`population_size` members, and a selected buffer of exactly half that
size. -/
theorem reset_spec (cfg : Config) (f : FitnessFunction) (e0 e : Engine)
    (h : reset cfg f e0 = .ok e) :
    e.config = cfg ∧ e.population.length = cfg.population_size ∧
    e.selected.length = cfg.get_half_population_size := by
  unfold reset at h
  rcases hv : cfg.validate with err | u <;> rw [hv] at h
  · cases h
  · simp only at h
    rcases hbi : randIndividu cfg
        ({ e0 with config := cfg, current_generation := 0, best_fitness := none } : Engine).rng
      with ⟨bi, s'⟩
    rw [hbi] at h
    simp only at h
    cases h
    obtain ⟨h1, h2, h3⟩ := init_population_spec f
      { { e0 with config := cfg, current_generation := 0, best_fitness := none } with
        best_individual := bi
        rng := s' }
    exact ⟨h2, h1, by simp⟩

/-- With a validated config whose population size is divisible by 4 and
buffers of their nominal sizes, a generation step always succeeds,
preserving the config and the nominal buffer sizes. -/
theorem step_some_facts (f : FitnessFunction) (e : Engine)
    (hok : e.config.validate = .ok ())
    (hdiv4 : e.config.population_size % 4 = 0)
    (hpop : e.population.length = e.config.population_size)
    (hsel : e.selected.length = e.config.get_half_population_size) :
    ∃ e', step f e = some e' ∧ e'.config = e.config ∧
      e'.population.length = e.config.population_size ∧
      e'.selected.length = e.config.get_half_population_size := by
  obtain ⟨hp0, hp2, hD, hV, hB, hBW, ht, hmm⟩ := validate_ok_facts e.config hok
  obtain ⟨e1, hsel1, hpl1, hsl1, hcfg1, hbf1, hbi1⟩ := selection_some f e ht
  have hE2 : ∃ e2, (if e.config.enable_elitism then update_best f e1 else e1) = e2 ∧
      e2.config = e.config ∧ e2.population.length = e.config.population_size ∧
      e2.selected.length = e.config.get_half_population_size := by
    by_cases hel : e.config.enable_elitism = true
    · rw [if_pos hel]
      have h := update_best_spec f e1
      refine ⟨_, rfl, ?_, ?_, ?_⟩
      · rw [h.2.2.2.1, hcfg1]
      · rw [h.2.2.1, hpl1, hpop]
      · rw [h.2.2.2.2.1]
        rw [hsl1, hsel]
    · rw [if_neg hel]
      exact ⟨e1, rfl, hcfg1, by rw [hpl1, hpop], by rw [hsl1, hsel]⟩
  obtain ⟨e2, he2, hc2, hp2', hs2⟩ := hE2
  obtain ⟨e3, hco, hpl3, hcfg3, hbf3, hbi3, hsl3, hkids⟩ :=
    create_offspring_spec e2 (by rw [hs2, hc2]) (by rw [hp2', hc2])
      (by rw [hc2]; exact hdiv4)
  have hm := mutate_population_frame e3
  have hc4 : (mutate_population e3).config = e.config := by
    rw [hm.2.2.1, hcfg3, hc2]
  have hp4 : (mutate_population e3).population.length = e.config.population_size := by
    rw [hm.2.2.2.2.2, hpl3, hc2]
  have hs4 : (mutate_population e3).selected.length = e.config.get_half_population_size := by
    rw [hm.2.2.2.2.1]
    rw [hsl3, hs2]
  have hE5 : ∃ e5, (if e.config.enable_elitism then add_best (mutate_population e3)
      else some (mutate_population e3)) = some e5 ∧
      e5.config = e.config ∧ e5.population.length = e.config.population_size ∧
      e5.selected.length = e.config.get_half_population_size := by
    by_cases hel : e.config.enable_elitism = true
    · rw [if_pos hel]
      obtain ⟨e5, hab, habl, habc, habs, _, _⟩ := add_best_some (mutate_population e3)
        (by rw [hc4]; exact hp0) (by rw [hc4, hp4])
      refine ⟨e5, hab, by rw [habc, hc4], by rw [habl, hp4], ?_⟩
      rw [habs]
      exact hs4
    · rw [if_neg hel]
      exact ⟨_, rfl, hc4, hp4, hs4⟩
  obtain ⟨e5, he5, hc5, hp5, hs5⟩ := hE5
  have hub := update_best_spec f e5
  refine ⟨{ update_best f e5 with
    current_generation := (update_best f e5).current_generation + 1 }, ?_, ?_, ?_, ?_⟩
  · unfold step
    rw [hsel1]
    simp only
    rw [he2]
    rw [hco]
    simp only
    rw [he5]
  · show (update_best f e5).config = e.config
    rw [hub.2.2.2.1, hc5]
  · show (update_best f e5).population.length = e.config.population_size
    rw [hub.2.2.1, hp5]
  · show (update_best f e5).selected.length = e.config.get_half_population_size
    rw [hub.2.2.2.2.1]
    exact hs5

/-- C1 (amended: the original claim fails at `population_size = 6`; the
guarantee needs `population_size` divisible by 4): once `validate`
accepts the config, the population size is divisible by 4, and the
buffers have the sizes the constructor establishes, no internal
operation of a generation step — selection, crossover/create_offspring,
mutation, elitism reinjection — can fail: every index stays within
bounds and `step` succeeds. -/
theorem C1_step_internal_safety (f : FitnessFunction) (e : Engine)
    (hok : e.config.validate = .ok ())
    (hdiv4 : e.config.population_size % 4 = 0)
    (hpop : e.population.length = e.config.population_size)
    (hsel : e.selected.length = e.config.get_half_population_size) :
    ∃ e', step f e = some e' := by
  obtain ⟨e', h, _, _, _⟩ := step_some_facts f e hok hdiv4 hpop hsel
  exact ⟨e', h⟩

/-- C10: with a validated config whose population size is divisible
by 4, the population holds exactly `population_size` individuals after
construction, after `reset`, and after every `step` of a run; within one
step, `create_offspring` overwrites each population slot exactly once —
the lower half with the first pairing pass's children in order, the
upper half with the second pass's children in order — so every
pre-crossover individual is replaced. -/
theorem C10_population_size_invariant (cfg : Config) (f : FitnessFunction)
    (seed entropy : Nat) (e : Engine)
    (hok : cfg.validate = .ok ()) (hdiv4 : cfg.population_size % 4 = 0)
    (hcfg : e.config = cfg)
    (hpop : e.population.length = cfg.population_size)
    (hsel : e.selected.length = cfg.get_half_population_size) :
    (∀ e0, mkEngine cfg f seed entropy = .ok e0 →
      e0.population.length = cfg.population_size) ∧
    (∀ eIn e0, reset cfg f eIn = .ok e0 → e0.population.length = cfg.population_size) ∧
    (∀ n e', runSteps f e n = some e' → e'.population.length = cfg.population_size) ∧
    (∃ (e' : Engine) (kids1 kids2 : List Individu), create_offspring e = some e' ∧
      e'.population.length = cfg.population_size ∧
      kids1.length = cfg.get_half_population_size ∧
      kids2.length = cfg.get_half_population_size ∧
      (∀ j, j < cfg.get_half_population_size →
        e'.population.getD j default = kids1.getD j default) ∧
      (∀ j, cfg.get_half_population_size ≤ j → j < cfg.population_size →
        e'.population.getD j default
          = kids2.getD (j - cfg.get_half_population_size) default)) := by
  refine ⟨?_, ?_, ?_, ?_⟩
  · intro e0 h
    exact (mkEngine_spec cfg f seed entropy e0 h).2.1
  · intro eIn e0 h
    exact (reset_spec cfg f eIn e0 h).2.1
  · have key : ∀ n (eC : Engine), eC.config = cfg →
        eC.population.length = cfg.population_size →
        eC.selected.length = cfg.get_half_population_size →
        ∀ e', runSteps f eC n = some e' →
          e'.population.length = cfg.population_size := by
      intro n
      induction n with
      | zero =>
        intro eC hc hp hs e' h
        simp only [runSteps] at h
        obtain rfl : eC = e' := Option.some.inj h
        exact hp
      | succ n ih =>
        intro eC hc hp hs e' h
        unfold runSteps at h
        obtain ⟨e1, hst, hc1, hp1, hs1⟩ := step_some_facts f eC (by rw [hc]; exact hok)
          (by rw [hc]; exact hdiv4) (by rw [hc]; exact hp) (by rw [hc]; exact hs)
        rw [hst] at h
        simp only at h
        exact ih e1 (by rw [hc1, hc]) (by rw [hp1, hc]) (by rw [hs1, hc]) e' h
    intro n e' h
    exact key n e hcfg hpop hsel e' h
  · obtain ⟨e', hco, hlen, hcfg', hbf, hbi, hsl, kids1, kids2, hk1, hk2, hlow, hhigh⟩ :=
      create_offspring_spec e (by rw [hsel, hcfg]) (by rw [hpop, hcfg])
        (by rw [hcfg]; exact hdiv4)
    refine ⟨e', kids1, kids2, hco, by rw [hlen, hcfg], by rw [hk1, hcfg],
      by rw [hk2, hcfg], ?_, ?_⟩
    · intro j hj
      exact hlow j (by rw [hcfg]; exact hj)
    · intro j h1 h2
      have hq := hhigh j (by rw [hcfg]; exact h1) (by rw [hcfg]; exact h2)
      rw [hcfg] at hq
      exact hq

/-- C4 (amended: the call-count identity of the original claim is false
— crossover invalidates both children unconditionally and duplicate
genotypes are evaluated separately, so the number of fitness-function
invocations can exceed the number of distinct genotypes ever produced;
what the code does guarantee is the per-individual cache behaviour):
`evaluate` returns the cached fitness with no fitness-function call when
the evaluated flag is set, and performs exactly one call otherwise,
caching the returned value with the genotype untouched. -/
theorem C4_evaluate_cache (cfg : Config) (f : FitnessFunction) (ind : Individu) :
    (ind.evaluated = true → evaluate cfg f ind = (ind.fitness, ind, 0)) ∧
    (ind.evaluated = false →
      (evaluate cfg f ind).1 = f (ind.to_real_vectors cfg) ∧
      (evaluate cfg f ind).2.2 = 1) ∧
    (evaluate cfg f ind).2.1.evaluated = true ∧
    (evaluate cfg f ind).2.1.fitness = (evaluate cfg f ind).1 ∧
    (evaluate cfg f ind).2.1.genes = ind.genes ∧
    (evaluate cfg f ind).2.1.mutation_probas = ind.mutation_probas := by
  obtain ⟨h1, h2, h3, h4, h5, h6⟩ := evaluate_spec cfg f ind
  refine ⟨h5, ?_, h1, h2, h3, h4⟩
  intro hne
  refine ⟨?_, h6 hne⟩
  simp [evaluate, Individu.have_been_evaluated, hne]

section ConcreteEvaluations

attribute [local semireducible] Rat.add Rat.mul Rat.sub Rat.inv

set_option maxRecDepth 100000

/-- C1 counterexample to the original wording: `population_size = 6`
passes `validate` (it is even and positive) and the engine is
successfully constructed, yet the generation step fails — with an odd
half population the last pairing of `create_offspring` reads
`m_selected[3]` out of bounds. -/
theorem C1_counterexample :
    testConfig6.validate = .ok () ∧
    mkEngine testConfig6 testFitness 42 0 = .ok testEngine6 ∧
    step testFitness testEngine6 = none :=
  ⟨by decide, by decide, by decide⟩

/-- Concrete instantiation of the amended C1 theorem on the
population-4 test engine. -/
theorem C1_step_internal_safety_witness :
    ∃ e', step testFitness testEngine4 = some e' :=
  C1_step_internal_safety testFitness testEngine4 (by decide) (by decide) (by decide)
    (by decide)

/-- C4 counterexample to the original wording: over the full test run
the fitness function is invoked 7 times while only 2 distinct genotypes
are ever produced — crossover invalidates the children unconditionally
and duplicate genotypes are evaluated separately, so the two counts
differ. -/
theorem C4_counterexample :
    testEngine4run.calls = 7 ∧ distinctProduced testEngine4run = 2 ∧
    ¬ testEngine4run.calls = distinctProduced testEngine4run :=
  ⟨by decide, by decide, by decide⟩

/-- Concrete instantiation of the amended C4 theorem: evaluating the
uncached parent individual invokes the fitness function exactly once. -/
theorem C4_evaluate_cache_witness :
    (evaluate testConfigC5 testFitness indA).1
        = testFitness (Individu.to_real_vectors testConfigC5 indA) ∧
    (evaluate testConfigC5 testFitness indA).2.2 = 1 :=
  (C4_evaluate_cache testConfigC5 testFitness indA).2.1 (by decide)

/-- Concrete instantiation of the C5 theorem: on the two-gene test
parents the drawn cut lands inside the flattened bit range. -/
theorem C5_single_point_bit_exchange_witness :
    spCut testConfigC5 0 < testConfigC5.dimension * testConfigC5.integer_bits :=
  (C5_single_point_bit_exchange testConfigC5 indA indB indA indB 0 0 (by decide)
    (by decide) (by decide) (by decide) (by decide) (by decide) (by decide)).1

/-- Concrete instantiation of the C6 theorem on the one-step test run. -/
theorem C6_best_fitness_monotone_witness :
    bestLE testEngine4.best_fitness testEngine4'.best_fitness ∧
    ∀ ind ∈ testEngine4'.population,
      ind.evaluated = true ∧ bestLE (some ind.fitness) testEngine4'.best_fitness :=
  C6_best_fitness_monotone testFitness testEngine4 testEngine4' (by decide)

/-- Concrete instantiation of the C7 theorem: the test selection call is
the winner sequence of its tournament rounds filling the selected
buffer. -/
theorem C7_selection_tournament_witness :
    ∃ ws pop'' s'' cc,
      selectionWinners testEngine4.config testFitness
          testEngine4.config.get_half_population_size testEngine4.population testEngine4.rng
        = some (ws, pop'', s'', cc) ∧
      ws.length = testEngine4.config.get_half_population_size ∧
      testEngineSel.selected = ws ∧ testEngineSel.population = pop'' :=
  (C7_selection_tournament testConfig4 testFitness testEngine4.population testEngine4.rng
    testEngine4 testEngineSel (by decide) (by decide)).2 (by decide)

/-- Concrete instantiation of the C9 theorem: the test selection call
returns the stored population unchanged. -/
theorem C9_selection_reads_population_witness :
    testEngineSel.population = testEngine4.population :=
  (C9_selection_reads_population testConfig4 testFitness 42 0 testEngine4 testEngine4
    testEngine4).2.2 (mkEngine_allEval testConfig4 testFitness 42 0 testEngine4 (by decide))
    testEngineSel (by decide)

/-- Concrete instantiation of the C10 theorem: the freshly constructed
test engine holds exactly `population_size` individuals. -/
theorem C10_population_size_invariant_witness :
    testEngine4.population.length = testConfig4.population_size :=
  (C10_population_size_invariant testConfig4 testFitness 42 0 testEngine4 (by decide)
    (by decide) (by decide) (by decide) (by decide)).1 testEngine4 (by decide)

end ConcreteEvaluations

end GaLib
